import Mathlib

/-!
Verification of the MCQ-Gen generation pipeline core.

Shallow embedding of the core of the MCQ-Gen repository
(`mcqgen/run_utils.py`, `mcqgen/postprocess.py`, `mcqgen/generate.py`,
`mcqgen/explain.py`, `mcqgen/mock_llm.py`, `mcqgen/text_utils.py`)
together with proofs about the partitioner, the postprocessor/validator,
the generation retry loop, the explanation enricher and the mock
generator.

Conventions of the embedding:
* Python `int` values appearing here are natural numbers (all quantities
  involved — page numbers, counts, attempt indices — are non-negative in
  every reachable state of the source).
* Python dictionaries with a fixed key set are Lean structures; keys that
  the source may leave absent (`explanation`, `id`) are `Option` fields.
* The process-wide random shuffles (`random.shuffle`) are modelled by
  explicit permutation-function parameters; theorems assume only that
  they permute their input.
* The external generation oracle is a function from the attempt number
  (and, for the enricher, the rendered prompt) to `Except`, modelling
  "call raised" vs "call returned".
* Fallible Python code (raising) is modelled with `Except String`.
-/

/-! ## Decimal rendering of naturals (model of Python `str(n)` / `f"{n:0wd}"`) -/

/-- Little-endian decimal digits of `n`.  The first argument is fuel
(any fuel `≥ n` gives the same value), so `decDigitsRev n n` computes the
decimal expansion of `n` (empty for `0`).  Models the digit sequence
Python `str` prints. -/
def decDigitsRev : Nat → Nat → List Nat
  | 0, _ => []
  | fuel + 1, n => if n = 0 then [] else n % 10 :: decDigitsRev fuel (n / 10)

/-- Decimal digits of `n`, least significant first. -/
def decDigits (n : Nat) : List Nat := decDigitsRev n n

/-- Value of a little-endian digit list. -/
def fromDigitsRev : List Nat → Nat
  | [] => 0
  | d :: ds => d + 10 * fromDigitsRev ds

/-- Model of Python `str(n)` for a natural number: its decimal numeral. -/
def natToString (n : Nat) : String :=
  if n = 0 then "0" else ⟨((decDigits n).map Nat.digitChar).reverse⟩

/-- Model of Python's zero-padding `f"{n:0wd}"`: left-pad with `'0'` to
a minimum width `w`. -/
def padZeros (w : Nat) (s : String) : String :=
  ⟨List.replicate (w - s.length) '0'⟩ ++ s

/-! ## Partitioner — `run_utils.make_chunks` -/

/-- A page window, as produced by `make_chunks` in `run_utils.py`:
`{"chunk_id": ..., "page_start": ..., "page_end": ...}`. -/
structure Chunk where
  chunk_id : String
  page_start : Nat
  page_end : Nat
deriving DecidableEq, Repr

/-- Window identifier `f"chunk_{idx:03d}"`. -/
def chunkIdString (idx : Nat) : String :=
  "chunk_" ++ padZeros 3 (natToString idx)

/-- The `while start <= total_pages` loop of `make_chunks`, with fuel.
Each iteration appends the window `[start, min(start+p-1, total)]`; if the
window's end reaches `total` the loop breaks, otherwise `start` advances by
`stride = p - ov` and the index increments.  The fuel `total + 1` used by
`make_chunks` is enough for every input with `ov < p`. -/
def makeChunksGo (total p ov : Nat) : Nat → Nat → Nat → List Chunk
  | 0, _, _ => []
  | fuel + 1, start, idx =>
    if start ≤ total then
      let e := min (start + p - 1) total
      if e = total then [⟨chunkIdString idx, start, e⟩]
      else ⟨chunkIdString idx, start, e⟩ :: makeChunksGo total p ov fuel (start + (p - ov)) (idx + 1)
    else []

/-- Embedding of `make_chunks(total_pages, pages_per_partition, overlap_pages)` from
`run_utils.py`. -/
def make_chunks (total p ov : Nat) : List Chunk :=
  makeChunksGo total p ov (total + 1) 1 1

/-! ## Question data model (`postprocess.py`, `generate.py`, `mock_llm.py`) -/

/-- A choice `{id, text}`. -/
structure Choice where
  id : String
  text : String
deriving DecidableEq, Repr

/-- A question record as passed between the generator, the postprocessor
and the enricher.  The keys that Python code may leave absent
(`explanation` before defaulting, `id` before assignment) are `Option`
fields; the keys the validator requires (`stem`, `choices`,
`correct_choice_ids`, `chunk_id`, `question_type`) are plain fields. -/
structure Question where
  question_type : String
  stem : String
  choices : List Choice
  correct_choice_ids : List String
  chunk_id : String
  explanation : Option String
  id : Option String
deriving DecidableEq, Repr

/-- Final question identifier `f"q_{i:04d}"`. -/
def formatQId (i : Nat) : String :=
  "q_" ++ padZeros 4 (natToString i)

/-- The per-question validation pass (part A of `postprocess_questions`),
including the `explanation` defaulting (`q.setdefault("explanation", "")`).
Mirrors the check order of the source; any violation raises (`.error`). -/
def checkQuestion (question_type : String) (choices_per_question : Nat)
    (q : Question) : Except String Question :=
  if q.question_type ≠ question_type then
    .error "Question type mismatch with config"
  else if q.choices.length ≠ choices_per_question then
    .error "Choices count mismatch"
  else if (∃ cid ∈ q.choices.map Choice.id, cid = "") ∨ ¬ (q.choices.map Choice.id).Nodup then
    .error "Choice ids must be unique and non-empty"
  else if q.correct_choice_ids.length < 1 then
    .error "correct_choice_ids must be a non-empty list"
  else if question_type = "MCQ" ∧ q.correct_choice_ids.length ≠ 1 then
    .error "MCQ must have exactly 1 correct choice"
  else if ∃ cid ∈ q.correct_choice_ids, cid ∉ q.choices.map Choice.id then
    .error "correct_choice_ids must refer to existing choices"
  else
    .ok { q with explanation := some (q.explanation.getD "") }

/-- The validation loop over all questions: stops at the first violation
(the Python `for` loop raises), otherwise returns the questions with
`explanation` defaulted. -/
def checkQuestions (question_type : String) (choices_per_question : Nat) :
    List Question → Except String (List Question)
  | [] => .ok []
  | q :: rest =>
    match checkQuestion question_type choices_per_question q with
    | .error e => .error e
    | .ok q' =>
      match checkQuestions question_type choices_per_question rest with
      | .error e => .error e
      | .ok rest' => .ok (q' :: rest')

/-- Part C of `postprocess_questions`: shuffle each question's choice
list in place.  The shuffle of the question at final position `i` is the
(arbitrary) permutation `shuffleC i`. -/
def shuffleOptionsFrom (shuffleC : Nat → List Choice → List Choice) :
    Nat → List Question → List Question
  | _, [] => []
  | i, q :: rest =>
    { q with choices := shuffleC i q.choices } :: shuffleOptionsFrom shuffleC (i + 1) rest

/-- Part D of `postprocess_questions`: `for i, q in enumerate(questions,
start=n): q["id"] = f"q_{i:04d}"`. -/
def assignIdsFrom : Nat → List Question → List Question
  | _, [] => []
  | n, q :: rest => { q with id := some (formatQId n) } :: assignIdsFrom (n + 1) rest

/-- Embedding of `postprocess_questions(questions, question_type, choices_per_question,
randomize_questions, randomize_options)` from `postprocess.py`.  The two
`random.shuffle` calls are modelled by the permutation parameters
`shuffleQ` (question order) and `shuffleC` (per-question choice order);
theorems about randomized behaviour only assume they permute their
input. -/
def postprocess_questions (questions : List Question) (question_type : String)
    (choices_per_question : Nat) (randomize_questions randomize_options : Bool)
    (shuffleQ : List Question → List Question)
    (shuffleC : Nat → List Choice → List Choice) : Except String (List Question) :=
  match checkQuestions question_type choices_per_question questions with
  | .error e => .error e
  | .ok qs =>
    let qs1 := if randomize_questions then shuffleQ qs else qs
    let qs2 := if randomize_options then shuffleOptionsFrom shuffleC 0 qs1 else qs1
    .ok (assignIdsFrom 1 qs2)

/-- Two valid sample questions used by the concrete witnesses. -/
def sampleQ1 : Question :=
  { question_type := "MCQ", stem := "s1",
    choices := [⟨"c1", "t1"⟩, ⟨"c2", "t2"⟩],
    correct_choice_ids := ["c1"], chunk_id := "chunk_001",
    explanation := none, id := none }

def sampleQ2 : Question :=
  { question_type := "MCQ", stem := "s2",
    choices := [⟨"c1", "u1"⟩, ⟨"c2", "u2"⟩],
    correct_choice_ids := ["c2"], chunk_id := "chunk_001",
    explanation := some "e2", id := none }

/-- An MCQ question with two correct choice ids, for the C3 witness. -/
def sampleQTwoCorrect : Question :=
  { question_type := "MCQ", stem := "s3",
    choices := [⟨"c1", "t1"⟩, ⟨"c2", "t2"⟩],
    correct_choice_ids := ["c1", "c2"], chunk_id := "chunk_001",
    explanation := none, id := none }

/-- The concrete result of postprocessing the two sample questions with
no randomization, used by the C9 witness. -/
def sampleProcessed : List Question :=
  [{ sampleQ1 with explanation := some "", id := some "q_0001" },
   { sampleQ2 with explanation := some "e2", id := some "q_0002" }]

/-! ## Mock generator — `mock_llm.mock_generate_questions_for_chunk` -/

/-- The fake choices `[{"id": f"c{k}", "text": f"Mock option {k} (chunk {chunk_id})"}
for k in range(1, n_choices + 1)]`. -/
def mockChoices (n_choices : Nat) (chunk_id : String) : List Choice :=
  (List.range' 1 n_choices).map (fun k =>
    { id := "c" ++ natToString k,
      text := "Mock option " ++ natToString k ++ " (chunk " ++ chunk_id ++ ")" })

/-- The mock correct-id selection: `["c2"]` for MCQ when at least two
choices (else `["c1"]`); for SATA `["c2","c4"]` when at least four,
`["c1","c2"]` when at least two, else `["c1"]`. -/
def mockCorrect (qtype : String) (n_choices : Nat) : List String :=
  if qtype = "MCQ" then
    if 2 ≤ n_choices then ["c2"] else ["c1"]
  else
    if 4 ≤ n_choices then ["c2", "c4"]
    else if 2 ≤ n_choices then ["c1", "c2"] else ["c1"]

/-- Embedding of `mock_generate_questions_for_chunk(chunk, cfg)` from `mock_llm.py`;
the three `cfg["generation"]` fields it reads (`question_type`,
`choices_per_question`, `questions_per_partition`) are passed as
parameters. -/
def mock_generate_questions_for_chunk (chunk : Chunk) (qtype : String)
    (n_choices n_q : Nat) : List Question :=
  (List.range' 1 n_q).map (fun i =>
    { question_type := qtype,
      stem := "[MOCK] Q" ++ natToString i ++ " for " ++ chunk.chunk_id
        ++ " (pages " ++ natToString chunk.page_start ++ "-"
        ++ natToString chunk.page_end ++ "): Which option is correct?",
      choices := mockChoices n_choices chunk.chunk_id,
      correct_choice_ids := mockCorrect qtype n_choices,
      chunk_id := chunk.chunk_id,
      explanation := some "",
      id := none })

/-! ## Brace escaping and Python `str.format` — `text_utils.py`, prompt rendering -/

/-- Single pass doubling every brace.  `escape_braces` in `text_utils.py`
is `text.replace("{", "{{").replace("}", "}}")`; the two sequential
replacements equal this single pass because the doubled opening braces
introduced by the first replacement contain no closing brace. -/
def escapeBracesList : List Char → List Char
  | [] => []
  | c :: rest =>
    if c = '{' then '{' :: '{' :: escapeBracesList rest
    else if c = '}' then '}' :: '}' :: escapeBracesList rest
    else c :: escapeBracesList rest

/-- Embedding of `escape_braces(text)` from `text_utils.py`. -/
def escape_braces (s : String) : String := ⟨escapeBracesList s.data⟩

/-- Scan to the closing brace of a replacement field: the field name is
everything before the first `'}'`; returns `none` when the template ends
before a closing brace (Python raises "Single brace in format string"). -/
def splitField (l : List Char) : Option (String × List Char) :=
  match l.dropWhile (fun c => c ≠ '}') with
  | [] => none
  | _ :: rest => some (⟨l.takeWhile (fun c => c ≠ '}')⟩, rest)

/-- Model of Python `str.format` over a template (as a character list):
`'{{'`/`'}}'` produce a literal brace, `'{name}'` substitutes the
variable `name` (KeyError when absent), a lone brace is an error, and —
exactly as in Python — substituted values are inserted verbatim, never
re-scanned for braces.  Restricted to simple named fields (no conversion
or format spec), which is all the repository's prompt templates use.
The fuel argument only bounds recursion; `template.length` always
suffices since every step consumes at least one character. -/
def pyFormatGo (vars : String → Option String) : Nat → List Char → Except String (List Char)
  | _, [] => .ok []
  | 0, _ :: _ => .error "format: fuel exhausted"
  | fuel + 1, c :: rest =>
    if c = '{' then
      if rest.head? = some '{' then
        (pyFormatGo vars fuel rest.tail).map (fun t => '{' :: t)
      else
        match splitField rest with
        | some (name, rest2) =>
          match vars name with
          | some v => (pyFormatGo vars fuel rest2).map (fun t => v.data ++ t)
          | none => .error ("KeyError: " ++ name)
        | none => .error "Single \x7b encountered in format string"
    else if c = '}' then
      if rest.head? = some '}' then
        (pyFormatGo vars fuel rest.tail).map (fun t => '}' :: t)
      else .error "Single \x7d encountered in format string"
    else
      (pyFormatGo vars fuel rest).map (fun t => c :: t)

/-- Model of `template.format(**variables)` on a template given as characters. -/
def pyFormat (vars : String → Option String) (template : List Char) : Except String String :=
  match pyFormatGo vars template.length template with
  | .error e => .error e
  | .ok t => .ok ⟨t⟩

/-- The replacement-field names of a template, in order, following the
same scan as `pyFormatGo`. -/
def templateVarsGo : Nat → List Char → List String
  | _, [] => []
  | 0, _ :: _ => []
  | fuel + 1, c :: rest =>
    if c = '{' then
      if rest.head? = some '{' then templateVarsGo fuel rest.tail
      else
        match splitField rest with
        | some (name, rest2) => name :: templateVarsGo fuel rest2
        | none => []
    else if c = '}' then
      if rest.head? = some '}' then templateVarsGo fuel rest.tail else []
    else templateVarsGo fuel rest

def templateVars (template : List Char) : List String :=
  templateVarsGo template.length template

/-! ## Generation orchestrator — `generate.llm_generate_questions_for_chunk` -/

/-- One schema-conforming question as returned by the structured oracle
call (`generation_schema`): stem, choices, correct choice ids. -/
structure RawQuestion where
  stem : String
  choices : List Choice
  correct_choice_ids : List String
deriving DecidableEq, Repr

/-- The `for attempt in range(1, retries + 1): try ... break except ...`
loop: try the oracle on each listed attempt number, return the first
success, `none` when every attempt raises. -/
def tryAttempts (oracle : Nat → Except String α) : List Nat → Option α
  | [] => none
  | a :: rest =>
    match oracle a with
    | .ok v => some v
    | .error _ => tryAttempts oracle rest

/-- Embedding of `llm_generate_questions_for_chunk` from `generate.py`.  The oracle
parameter maps the attempt number to the parsed, schema-conforming data
(`call_responses_structured` succeeded) or to an error (the call raised
or its output failed to parse) — prompt construction, schema and model
configuration are part of the opaque oracle capability.  On exhausted
retries the chunk contributes zero questions; on success each returned
item is wrapped with the window's `chunk_id` and an empty explanation. -/
def llm_generate_questions_for_chunk (oracle : Nat → Except String (List RawQuestion))
    (qtype chunk_id : String) (retries : Nat := 3) : List Question :=
  match tryAttempts oracle (List.range' 1 retries) with
  | none => []
  | some data => data.map (fun r =>
      { question_type := qtype, stem := r.stem, choices := r.choices,
        correct_choice_ids := r.correct_choice_ids, chunk_id := chunk_id,
        explanation := some "", id := none })

/-! ## Explanation enricher — `explain.add_explanations_for_wrong_questions` -/

/-- Model of `chr(ord("A") + idx)`. -/
def letterOf (idx : Nat) : Char := Char.ofNat (65 + idx)

/-- Lines `f"{letter}. {text}"` of `format_choices_with_letters`,
starting at position `idx`. -/
def formatChoicesLinesFrom (idx : Nat) : List Choice → List String
  | [] => []
  | c :: rest => (⟨[letterOf idx]⟩ ++ ". " ++ c.text) :: formatChoicesLinesFrom (idx + 1) rest

/-- Embedding of `format_choices_with_letters(choices)` from `explain.py`. -/
def format_choices_with_letters (choices : List Choice) : String :=
  String.intercalate "\n" (formatChoicesLinesFrom 0 choices)

/-- The `id_to_letter` association built by `format_correct_letters`
(skipping falsy ids); a later binding for the same id overwrites an
earlier one, so lookups search the reversed list. -/
def idLetterAssoc (idx : Nat) : List Choice → List (String × Char)
  | [] => []
  | c :: rest =>
    (if c.id ≠ "" then [(c.id, letterOf idx)] else []) ++ idLetterAssoc (idx + 1) rest

/-- Embedding of `format_correct_letters(choices, correct_ids)` from `explain.py`:
each correct id rendered as its letter in current order, `"?"` when
unknown, joined with `", "`. -/
def format_correct_letters (choices : List Choice) (correct_ids : List String) : String :=
  String.intercalate ", " (correct_ids.map (fun cid =>
    match ((idLetterAssoc 0 choices).reverse).lookup cid with
    | some ch => (⟨[ch]⟩ : String)
    | none => "?"))

/-- The variables dict built in `add_explanations_for_wrong_questions`
(lines 122–127): `stem`, `choices` and `correct_choice_ids`, each passed
through `escape_braces` before substitution. -/
def explainVariables (stem choicesStr correctStr : String) : String → Option String :=
  fun name =>
    if name = "stem" then some (escape_braces stem)
    else if name = "choices" then some (escape_braces choicesStr)
    else if name = "correct_choice_ids" then some (escape_braces correctStr)
    else none

/-- Embedding of `render_explain_prompt(template_path, variables)` from `explain.py`:
`template.format(**variables)` on the template file's text. -/
def render_explain_prompt (template : List Char) (vars : String → Option String) :
    Except String String :=
  pyFormat vars template

/-- The persisted run output (`output.json`): `{schema_version, run_id,
context_file, settings, questions}`; `settings` is carried opaquely. -/
structure RunOutput where
  schema_version : Nat
  run_id : String
  context_file : String
  settings : List (String × String)
  questions : List Question
deriving DecidableEq, Repr

/-- Model of Python `str.strip()`: drop leading and trailing
whitespace. -/
def pyStrip (s : String) : String :=
  ⟨((s.data.dropWhile Char.isWhitespace).reverse.dropWhile Char.isWhitespace).reverse⟩

/-- The `by_id` lookup of `add_explanations_for_wrong_questions`:
`by_id = {q.get("id"): q for q in questions}` keeps the last question
with a given id, so look from the end. -/
def lastWithId (questions : List Question) (qid : String) : Option Question :=
  questions.reverse.find? (fun q => decide (q.id = some qid))

/-- Write a new explanation into the question `by_id[qid]` points at:
the last list element whose id is `qid` (all other fields and all other
elements untouched). -/
def setExplanationLast (qid : String) (e : String) : List Question → List Question
  | [] => []
  | q :: rest =>
    if rest.any (fun r => decide (r.id = some qid)) then
      q :: setExplanationLast qid e rest
    else if q.id = some qid then
      { q with explanation := some e } :: rest
    else q :: setExplanationLast qid e rest

/-- The `for qid in wrong_ids` loop of
`add_explanations_for_wrong_questions`, carrying the updated question
list and the `updated` / `skipped_missing` / `skipped_failed` counters.
Unknown ids are counted and skipped; for a found question the prompt is
rendered (a template error propagates, as the rendering happens outside
the retry `try`), the free-text oracle is tried on attempts
`1..retries`, and on success the stripped text is written into the
question's `explanation`; on exhausted retries the question is counted
as failed and left untouched. -/
def addExplanationsGo (template : List Char) (oracle : String → Nat → Except String String)
    (retries : Nat) :
    List String → List Question → Nat → Nat → Nat →
    Except String (List Question × Nat × Nat × Nat)
  | [], qs, u, m, f => .ok (qs, u, m, f)
  | qid :: rest, qs, u, m, f =>
    match lastWithId qs qid with
    | none => addExplanationsGo template oracle retries rest qs u (m + 1) f
    | some q =>
      match render_explain_prompt template (explainVariables q.stem
          (format_choices_with_letters q.choices)
          (format_correct_letters q.choices q.correct_choice_ids)) with
      | .error e => .error e
      | .ok prompt =>
        match tryAttempts (oracle prompt) (List.range' 1 retries) with
        | none => addExplanationsGo template oracle retries rest qs u m (f + 1)
        | some text =>
          addExplanationsGo template oracle retries rest
            (setExplanationLast qid (pyStrip text) qs) (u + 1) m f

/-- Embedding of `add_explanations_for_wrong_questions` from `explain.py`.  The
free-text oracle parameter maps (prompt, attempt number) to the response
text or an error ("the call raised"); `.strip()` is modelled by
`pyStrip`.  Returns the updated output together with the
`updated` / `skipped_missing` / `skipped_failed` counters the source
accumulates and logs. -/
def add_explanations_for_wrong_questions (output : RunOutput) (wrong_ids : List String)
    (template : List Char) (oracle : String → Nat → Except String String)
    (retries : Nat := 3) : Except String (RunOutput × Nat × Nat × Nat) :=
  match addExplanationsGo template oracle retries wrong_ids output.questions 0 0 0 with
  | .error e => .error e
  | .ok (qs, u, m, f) => .ok ({ output with questions := qs }, u, m, f)

/-- A run output with one question, used by enrichment witnesses. -/
def sampleOutput : RunOutput :=
  { schema_version := 1, run_id := "run1", context_file := "doc.pdf",
    settings := [("question_type", "MCQ")],
    questions := [{ sampleQ1 with explanation := some "", id := some "q_0001" }] }

/-- Two questions agreeing on every field except possibly
`explanation`. -/
def SameExceptExplanation (a b : Question) : Prop :=
  b.question_type = a.question_type ∧ b.stem = a.stem ∧ b.choices = a.choices ∧
  b.correct_choice_ids = a.correct_choice_ids ∧ b.chunk_id = a.chunk_id ∧ b.id = a.id

/-- The enrichment of `sampleOutput` on `q_0001` with a succeeding
oracle, as a concrete value for the C8 witness. -/
def sampleOutputUpdated : RunOutput :=
  { sampleOutput with questions :=
      [{ sampleQ1 with explanation := some "Because.", id := some "q_0001" }] }

theorem decDigitsRev_fuel_irrel : ∀ f₁ f₂ n : Nat, n ≤ f₁ → n ≤ f₂ →
    decDigitsRev f₁ n = decDigitsRev f₂ n := by
  intro f₁
  induction f₁ with
  | zero =>
    intro f₂ n h1 _
    interval_cases n
    cases f₂ <;> simp [decDigitsRev]
  | succ f ih =>
    intro f₂ n h1 h2
    by_cases h0 : n = 0
    · subst h0; cases f₂ <;> simp [decDigitsRev]
    · obtain ⟨m, rfl⟩ : ∃ m, f₂ = m + 1 := ⟨f₂ - 1, by omega⟩
      have hdiv : n / 10 < n := Nat.div_lt_self (Nat.pos_of_ne_zero h0) (by omega)
      simp only [decDigitsRev, if_neg h0]
      rw [ih m (n / 10) (by omega) (by omega)]

theorem decDigits_eq_cons {n : Nat} (hn : n ≠ 0) :
    decDigits n = n % 10 :: decDigits (n / 10) := by
  have hpos : 0 < n := Nat.pos_of_ne_zero hn
  obtain ⟨m, rfl⟩ : ∃ m, n = m + 1 := ⟨n - 1, by omega⟩
  have hdiv : (m + 1) / 10 < m + 1 := Nat.div_lt_self (by omega) (by omega)
  simp only [decDigits, decDigitsRev, if_neg hn]
  rw [decDigitsRev_fuel_irrel m ((m + 1) / 10) ((m + 1) / 10) (by omega) (le_refl _)]

theorem fromDigitsRev_decDigits (n : Nat) : fromDigitsRev (decDigits n) = n := by
  induction n using Nat.strong_induction_on with
  | _ n ih =>
    by_cases h0 : n = 0
    · subst h0; simp [decDigits, decDigitsRev, fromDigitsRev]
    · rw [decDigits_eq_cons h0, fromDigitsRev]
      have hlt : n / 10 < n := Nat.div_lt_self (Nat.pos_of_ne_zero h0) (by omega)
      rw [ih (n / 10) hlt]
      omega

theorem decDigits_lt_ten (n : Nat) : ∀ d ∈ decDigits n, d < 10 := by
  induction n using Nat.strong_induction_on with
  | _ n ih =>
    by_cases h0 : n = 0
    · subst h0; simp [decDigits, decDigitsRev]
    · rw [decDigits_eq_cons h0]
      intro d hd
      rcases List.mem_cons.mp hd with h | h
      · subst h; exact Nat.mod_lt _ (by omega)
      · exact ih (n / 10) (Nat.div_lt_self (Nat.pos_of_ne_zero h0) (by omega)) d h

theorem digitChar_inj_lt : ∀ d < 10, ∀ e < 10, Nat.digitChar d = Nat.digitChar e → d = e := by
  decide

theorem map_digitChar_inj : ∀ l₁ l₂ : List Nat, (∀ d ∈ l₁, d < 10) → (∀ d ∈ l₂, d < 10) →
    l₁.map Nat.digitChar = l₂.map Nat.digitChar → l₁ = l₂ := by
  intro l₁
  induction l₁ with
  | nil => intro l₂ _ _ h; cases l₂ <;> simp_all
  | cons a t ih =>
    intro l₂ h₁ h₂ h
    cases l₂ with
    | nil => simp at h
    | cons b t₂ =>
      simp only [List.map_cons, List.cons.injEq] at h
      have ha : a = b := digitChar_inj_lt a (h₁ a (by simp)) b (h₂ b (by simp)) h.1
      have ht : t = t₂ := ih t₂ (fun d hd => h₁ d (by simp [hd]))
        (fun d hd => h₂ d (by simp [hd])) h.2
      rw [ha, ht]

theorem natToString_inj_pos {a b : Nat} (ha : 0 < a) (hb : 0 < b)
    (h : natToString a = natToString b) : a = b := by
  unfold natToString at h
  rw [if_neg (by omega), if_neg (by omega)] at h
  have hdata : ((decDigits a).map Nat.digitChar).reverse
      = ((decDigits b).map Nat.digitChar).reverse := congrArg String.data h
  have hmap : (decDigits a).map Nat.digitChar = (decDigits b).map Nat.digitChar :=
    List.reverse_injective hdata
  have hdig : decDigits a = decDigits b :=
    map_digitChar_inj _ _ (decDigits_lt_ten a) (decDigits_lt_ten b) hmap
  calc a = fromDigitsRev (decDigits a) := (fromDigitsRev_decDigits a).symm
    _ = fromDigitsRev (decDigits b) := by rw [hdig]
    _ = b := fromDigitsRev_decDigits b

theorem makeChunksGo_spec (total p ov : Nat) (hp : 1 ≤ p) (hov : ov < p) :
    ∀ fuel start idx, 1 ≤ start → start ≤ total → total < start + fuel →
    (makeChunksGo total p ov fuel start idx ≠ []) ∧
    (∀ hne : makeChunksGo total p ov fuel start idx ≠ [],
      ((makeChunksGo total p ov fuel start idx).head hne).page_start = start ∧
      ((makeChunksGo total p ov fuel start idx).head hne).page_end = min (start + p - 1) total) ∧
    (∀ c ∈ makeChunksGo total p ov fuel start idx,
      start ≤ c.page_start ∧ c.page_start ≤ c.page_end ∧ c.page_end ≤ total) ∧
    (∀ page, start ≤ page → page ≤ total →
      ∃ c ∈ makeChunksGo total p ov fuel start idx, c.page_start ≤ page ∧ page ≤ c.page_end) ∧
    (∀ i (hi : i + 1 < (makeChunksGo total p ov fuel start idx).length),
      ((makeChunksGo total p ov fuel start idx).get ⟨i + 1, hi⟩).page_start + ov
        = ((makeChunksGo total p ov fuel start idx).get ⟨i, Nat.lt_of_succ_lt hi⟩).page_end + 1 ∧
      ((makeChunksGo total p ov fuel start idx).get ⟨i, Nat.lt_of_succ_lt hi⟩).page_start
        < ((makeChunksGo total p ov fuel start idx).get ⟨i + 1, hi⟩).page_start ∧
      ((makeChunksGo total p ov fuel start idx).get ⟨i, Nat.lt_of_succ_lt hi⟩).page_end
        < ((makeChunksGo total p ov fuel start idx).get ⟨i + 1, hi⟩).page_end) := by
  intro fuel
  induction fuel with
  | zero => intro start idx h1 h2 h3; omega
  | succ fuel ih =>
    intro start idx h1 h2 h3
    by_cases he : min (start + p - 1) total = total
    · -- final window: the loop breaks
      have hL : makeChunksGo total p ov (fuel + 1) start idx
          = [⟨chunkIdString idx, start, min (start + p - 1) total⟩] := by
        simp [makeChunksGo, h2, he]
      rw [hL]
      refine ⟨by simp, ?_, ?_, ?_, ?_⟩
      · intro hne; exact ⟨rfl, rfl⟩
      · intro c hc
        simp only [List.mem_singleton] at hc
        subst hc
        simp only [he]
        refine ⟨le_refl _, h2, le_refl _⟩
      · intro page hp1 hp2
        refine ⟨⟨chunkIdString idx, start, min (start + p - 1) total⟩, by simp, hp1, ?_⟩
        show page ≤ min (start + p - 1) total
        rw [he]; exact hp2
      · intro i hi
        simp only [List.length_singleton] at hi
        omega
    · -- non-final window: loop continues at start + stride
      have hmin : min (start + p - 1) total = start + p - 1 := by
        rcases Nat.le_total (start + p - 1) total with h | h
        · exact min_eq_left h
        · exact absurd (min_eq_right h) he
      have hel : start + p - 1 < total := by
        have := min_le_right (start + p - 1) total
        omega
      have hL : makeChunksGo total p ov (fuel + 1) start idx
          = ⟨chunkIdString idx, start, min (start + p - 1) total⟩
            :: makeChunksGo total p ov fuel (start + (p - ov)) (idx + 1) := by
        simp [makeChunksGo, h2, he]
      have hstart' : start + (p - ov) ≤ total := by omega
      have hIH := ih (start + (p - ov)) (idx + 1) (by omega) hstart' (by omega)
      obtain ⟨hne', hhead', hbounds', hcover', hchain'⟩ := hIH
      -- expose the head of the tail
      rcases hLtail : makeChunksGo total p ov fuel (start + (p - ov)) (idx + 1) with _ | ⟨c', L''⟩
      · exact absurd hLtail hne'
      rw [hLtail] at hhead' hbounds' hcover' hchain'
      have hc'start : c'.page_start = start + (p - ov) := (hhead' (by simp)).1
      have hc'end : c'.page_end = min (start + (p - ov) + p - 1) total := (hhead' (by simp)).2
      rw [hL, hLtail]
      refine ⟨by simp, ?_, ?_, ?_, ?_⟩
      · intro hne; exact ⟨rfl, rfl⟩
      · intro c hc
        rcases List.mem_cons.mp hc with h | h
        · subst h; simp only [hmin]; omega
        · have := hbounds' c h; omega
      · intro page hp1 hp2
        by_cases hpe : page ≤ start + p - 1
        · refine ⟨⟨chunkIdString idx, start, min (start + p - 1) total⟩, by simp, hp1, ?_⟩
          show page ≤ min (start + p - 1) total
          rw [hmin]; exact hpe
        · obtain ⟨c, hc, hcs, hce⟩ := hcover' page (by omega) hp2
          exact ⟨c, by simp [hc], hcs, hce⟩
      · intro i hi
        cases i with
        | zero =>
          refine ⟨?_, ?_, ?_⟩
          · show c'.page_start + ov = min (start + p - 1) total + 1
            rw [hc'start, hmin]; omega
          · show start < c'.page_start
            rw [hc'start]; omega
          · show min (start + p - 1) total < c'.page_end
            rw [hmin, hc'end]
            exact lt_min (by omega) (by omega)
        | succ i =>
          have hi' : i + 1 < (c' :: L'').length := by
            simpa using Nat.lt_of_succ_lt_succ hi
          have := hchain' i hi'
          simpa using this

/-- C1: for every `total_pages ≥ 0`, `pages_per_partition ≥ 1` and
`0 ≤ overlap_pages < pages_per_partition`, the windows returned by
`make_chunks` (i) are empty exactly when `total_pages = 0`, (ii) each
satisfy `1 ≤ page_start ≤ page_end ≤ total_pages`, (iii) union to exactly
the pages `[1, total_pages]` with no gaps, and (iv) every pair of
consecutive windows overlaps in exactly `overlap_pages` pages (so in
particular each non-final pair does, and windows are contiguous since the
next window starts at `page_end + 1 - overlap_pages ≤ page_end + 1`). -/
theorem make_chunks_correct (total p ov : Nat) (hp : 1 ≤ p) (hov : ov < p) :
    (total = 0 → make_chunks total p ov = []) ∧
    (∀ c ∈ make_chunks total p ov,
      1 ≤ c.page_start ∧ c.page_start ≤ c.page_end ∧ c.page_end ≤ total) ∧
    (∀ page, (1 ≤ page ∧ page ≤ total) ↔
      ∃ c ∈ make_chunks total p ov, c.page_start ≤ page ∧ page ≤ c.page_end) ∧
    (∀ i (hi : i + 1 < (make_chunks total p ov).length),
      ((make_chunks total p ov).get ⟨i + 1, hi⟩).page_start + ov
        = ((make_chunks total p ov).get ⟨i, Nat.lt_of_succ_lt hi⟩).page_end + 1 ∧
      (Finset.Icc ((make_chunks total p ov).get ⟨i, Nat.lt_of_succ_lt hi⟩).page_start
          ((make_chunks total p ov).get ⟨i, Nat.lt_of_succ_lt hi⟩).page_end ∩
        Finset.Icc ((make_chunks total p ov).get ⟨i + 1, hi⟩).page_start
          ((make_chunks total p ov).get ⟨i + 1, hi⟩).page_end).card = ov) := by
  by_cases h0 : total = 0
  · subst h0
    have hL : make_chunks 0 p ov = [] := by simp [make_chunks, makeChunksGo]
    refine ⟨fun _ => hL, ?_, ?_, ?_⟩
    · rw [hL]; intro c hc; simp at hc
    · intro page
      rw [hL]
      constructor
      · intro h; omega
      · intro h; simp at h
    · intro i hi; rw [hL] at hi; simp at hi
  · simp only [make_chunks]
    have hs := makeChunksGo_spec total p ov hp hov (total + 1) 1 1 (le_refl _)
      (by omega) (by omega)
    obtain ⟨hne, _, hbounds, hcover, hchain⟩ := hs
    refine ⟨fun h => absurd h h0, hbounds, ?_, ?_⟩
    · intro page
      constructor
      · intro ⟨h1, h2⟩; exact hcover page h1 h2
      · rintro ⟨c, hc, hcs, hce⟩
        have := hbounds c hc
        omega
    · intro i hi
      obtain ⟨heq, hsmono, hemono⟩ := hchain i hi
      refine ⟨heq, ?_⟩
      have hinter : Finset.Icc ((makeChunksGo total p ov (total + 1) 1 1).get
            ⟨i, Nat.lt_of_succ_lt hi⟩).page_start
            ((makeChunksGo total p ov (total + 1) 1 1).get ⟨i, Nat.lt_of_succ_lt hi⟩).page_end ∩
          Finset.Icc ((makeChunksGo total p ov (total + 1) 1 1).get ⟨i + 1, hi⟩).page_start
            ((makeChunksGo total p ov (total + 1) 1 1).get ⟨i + 1, hi⟩).page_end
          = Finset.Icc ((makeChunksGo total p ov (total + 1) 1 1).get ⟨i + 1, hi⟩).page_start
            ((makeChunksGo total p ov (total + 1) 1 1).get ⟨i, Nat.lt_of_succ_lt hi⟩).page_end := by
        ext x
        simp only [Finset.mem_inter, Finset.mem_Icc]
        omega
      rw [hinter, Nat.card_Icc]
      omega

/-- C1 witness: on the spec's own examples, `make_chunks 10 4 1` yields the
three windows `[1,4], [4,7], [7,10]`, `make_chunks 5 10 0` yields the single
window `[1,5]`, and the general theorem applies at `(10, 4, 1)`. -/
theorem make_chunks_correct_witness :
    make_chunks 10 4 1 = [⟨"chunk_001", 1, 4⟩, ⟨"chunk_002", 4, 7⟩, ⟨"chunk_003", 7, 10⟩] ∧
    make_chunks 5 10 0 = [⟨"chunk_001", 1, 5⟩] ∧
    ((10 = 0 → make_chunks 10 4 1 = []) ∧
    (∀ c ∈ make_chunks 10 4 1,
      1 ≤ c.page_start ∧ c.page_start ≤ c.page_end ∧ c.page_end ≤ 10) ∧
    (∀ page, (1 ≤ page ∧ page ≤ 10) ↔
      ∃ c ∈ make_chunks 10 4 1, c.page_start ≤ page ∧ page ≤ c.page_end) ∧
    (∀ i (hi : i + 1 < (make_chunks 10 4 1).length),
      ((make_chunks 10 4 1).get ⟨i + 1, hi⟩).page_start + 1
        = ((make_chunks 10 4 1).get ⟨i, Nat.lt_of_succ_lt hi⟩).page_end + 1 ∧
      (Finset.Icc ((make_chunks 10 4 1).get ⟨i, Nat.lt_of_succ_lt hi⟩).page_start
          ((make_chunks 10 4 1).get ⟨i, Nat.lt_of_succ_lt hi⟩).page_end ∩
        Finset.Icc ((make_chunks 10 4 1).get ⟨i + 1, hi⟩).page_start
          ((make_chunks 10 4 1).get ⟨i + 1, hi⟩).page_end).card = 1)) := by
  refine ⟨?_, ?_, ?_⟩
  · decide
  · decide
  · exact make_chunks_correct 10 4 1 (by decide) (by decide)

theorem assignIdsFrom_length : ∀ (n : Nat) (l : List Question),
    (assignIdsFrom n l).length = l.length := by
  intro n l
  induction l generalizing n with
  | nil => rfl
  | cons q rest ih => simp [assignIdsFrom, ih]

theorem assignIdsFrom_map_id : ∀ (n : Nat) (l : List Question),
    (assignIdsFrom n l).map Question.id
      = (List.range l.length).map (fun i => some (formatQId (n + i))) := by
  intro n l
  induction l generalizing n with
  | nil => rfl
  | cons q rest ih =>
    show some (formatQId n) :: (assignIdsFrom (n + 1) rest).map Question.id = _
    rw [ih (n + 1), List.length_cons, List.range_succ_eq_map, List.map_cons, List.map_map]
    congr 1
    apply List.map_congr_left
    intro a _
    simp only [Function.comp_apply]
    rw [show n + 1 + a = n + a.succ from by omega]

theorem checkQuestions_length (qt : String) (cpq : Nat) :
    ∀ (l l' : List Question), checkQuestions qt cpq l = .ok l' → l'.length = l.length := by
  intro l
  induction l with
  | nil => intro l' h; simp only [checkQuestions] at h; cases h; rfl
  | cons q rest ih =>
    intro l' h
    simp only [checkQuestions] at h
    cases hq : checkQuestion qt cpq q with
    | error e => rw [hq] at h; cases h
    | ok q' =>
      rw [hq] at h
      cases hr : checkQuestions qt cpq rest with
      | error e => rw [hr] at h; cases h
      | ok rest' =>
        rw [hr] at h
        cases h
        simp [ih rest' hr]

theorem shuffleOptionsFrom_length (sC : Nat → List Choice → List Choice) :
    ∀ (i : Nat) (l : List Question), (shuffleOptionsFrom sC i l).length = l.length := by
  intro i l
  induction l generalizing i with
  | nil => rfl
  | cons q rest ih => simp [shuffleOptionsFrom, ih]

/-- C2: for every input that passes validation, `postprocess_questions`
assigns final ids strictly in final list order, starting at 1 with no
gaps — the output's ids are exactly `q_0001 … q_000N` (`formatQId 1 …
formatQId N` for `N` output questions) — regardless of the
`randomize_questions`/`randomize_options` flags, and the output has one
question per input question. -/
theorem postprocess_questions_ids (questions : List Question) (qt : String) (cpq : Nat)
    (rq ro : Bool) (sQ : List Question → List Question)
    (sC : Nat → List Choice → List Choice)
    (hsQ : ∀ l, List.Perm (sQ l) l) (out : List Question)
    (h : postprocess_questions questions qt cpq rq ro sQ sC = .ok out) :
    out.map Question.id = (List.range out.length).map (fun i => some (formatQId (i + 1))) ∧
    out.length = questions.length := by
  unfold postprocess_questions at h
  cases hc : checkQuestions qt cpq questions with
  | error e => rw [hc] at h; cases h
  | ok qs =>
    rw [hc] at h
    simp only at h
    cases h
    have hlen1 : (if rq then sQ qs else qs).length = qs.length := by
      cases rq with
      | false => simp
      | true => simp [(hsQ qs).length_eq]
    have hlen2 : (if ro then shuffleOptionsFrom sC 0 (if rq then sQ qs else qs)
        else (if rq then sQ qs else qs)).length = qs.length := by
      cases ro with
      | false => simpa using hlen1
      | true => simpa [shuffleOptionsFrom_length] using hlen1
    constructor
    · rw [assignIdsFrom_map_id, assignIdsFrom_length]
      apply List.map_congr_left
      intro i _
      rw [Nat.add_comm 1 i]
    · rw [assignIdsFrom_length, hlen2, checkQuestions_length qt cpq questions qs hc]

/-- C2 witness: with both randomization flags on and reversal as the
permutation, the two sample questions come out carrying exactly the ids
`q_0001`, `q_0002` in final order. -/
theorem postprocess_questions_ids_witness :
    (postprocess_questions [sampleQ1, sampleQ2] "MCQ" 2 true true List.reverse
        (fun _ => List.reverse)).isOk = true ∧
    (∀ out, postprocess_questions [sampleQ1, sampleQ2] "MCQ" 2 true true List.reverse
        (fun _ => List.reverse) = .ok out →
      out.map Question.id = [some "q_0001", some "q_0002"] ∧ out.length = 2) := by
  constructor
  · decide
  · intro out h
    have hm := postprocess_questions_ids [sampleQ1, sampleQ2] "MCQ" 2 true true
      List.reverse (fun _ => List.reverse) (fun l => List.reverse_perm l) out h
    have h2 : out.length = 2 := by simpa using hm.2
    refine ⟨?_, h2⟩
    rw [hm.1, h2]
    decide

theorem checkQuestion_error_of_mcq_bad_correct (qt : String) (cpq : Nat) (q : Question)
    (ht : q.question_type = "MCQ") (hl : q.correct_choice_ids.length ≠ 1) :
    ∃ e, checkQuestion qt cpq q = .error e := by
  unfold checkQuestion
  by_cases h1 : q.question_type ≠ qt
  · rw [if_pos h1]; exact ⟨_, rfl⟩
  · rw [if_neg h1]
    push_neg at h1
    by_cases h2 : q.choices.length ≠ cpq
    · rw [if_pos h2]; exact ⟨_, rfl⟩
    · rw [if_neg h2]
      by_cases h3 : (∃ cid ∈ q.choices.map Choice.id, cid = "")
          ∨ ¬ (q.choices.map Choice.id).Nodup
      · rw [if_pos h3]; exact ⟨_, rfl⟩
      · rw [if_neg h3]
        by_cases h4 : q.correct_choice_ids.length < 1
        · rw [if_pos h4]; exact ⟨_, rfl⟩
        · rw [if_neg h4]
          have h5 : qt = "MCQ" ∧ q.correct_choice_ids.length ≠ 1 := by
            constructor
            · rw [← h1, ht]
            · exact hl
          rw [if_pos h5]
          exact ⟨_, rfl⟩

theorem checkQuestions_error_of_mem (qt : String) (cpq : Nat) :
    ∀ (l : List Question) (q : Question), q ∈ l →
    (∃ e, checkQuestion qt cpq q = .error e) →
    ∃ e, checkQuestions qt cpq l = .error e := by
  intro l
  induction l with
  | nil => intro q hq _; simp at hq
  | cons a rest ih =>
    intro q hq herr
    rcases List.mem_cons.mp hq with rfl | hmem
    · obtain ⟨e, he⟩ := herr
      exact ⟨e, by simp [checkQuestions, he]⟩
    · cases ha : checkQuestion qt cpq a with
      | error e => exact ⟨e, by simp [checkQuestions, ha]⟩
      | ok a' =>
        obtain ⟨e, he⟩ := ih q hmem herr
        exact ⟨e, by simp [checkQuestions, ha, he]⟩

/-- C3: whenever some input question has `question_type = "MCQ"` and a
`correct_choice_ids` list whose length is not exactly 1 (e.g. two correct
ids), `postprocess_questions` raises a validation error — it returns
`.error` and never an `.ok` result, for every configuration and shuffle,
so the list is never silently coerced and the question never silently
dropped. -/
theorem postprocess_questions_mcq_two_correct_raises (questions : List Question)
    (qt : String) (cpq : Nat) (rq ro : Bool) (sQ : List Question → List Question)
    (sC : Nat → List Choice → List Choice) (q : Question) (hq : q ∈ questions)
    (ht : q.question_type = "MCQ") (hl : q.correct_choice_ids.length ≠ 1) :
    ∃ e, postprocess_questions questions qt cpq rq ro sQ sC = .error e := by
  obtain ⟨e, he⟩ := checkQuestions_error_of_mem qt cpq questions q hq
    (checkQuestion_error_of_mcq_bad_correct qt cpq q ht hl)
  exact ⟨e, by simp [postprocess_questions, he]⟩

/-- C3 witness: on a concrete MCQ question with two correct ids the
postprocessor raises exactly the source's "MCQ must have exactly 1
correct choice" error. -/
theorem postprocess_questions_mcq_two_correct_raises_witness :
    postprocess_questions [sampleQ1, sampleQTwoCorrect] "MCQ" 2 false false id
        (fun _ l => l) = .error "MCQ must have exactly 1 correct choice" ∧
    (∃ e, postprocess_questions [sampleQ1, sampleQTwoCorrect] "MCQ" 2 false false id
        (fun _ l => l) = .error e) := by
  constructor
  · rfl
  · exact postprocess_questions_mcq_two_correct_raises [sampleQ1, sampleQTwoCorrect]
      "MCQ" 2 false false id (fun _ l => l) sampleQTwoCorrect (by decide)
      (by decide) (by decide)

theorem checkQuestion_ok_shape (qt : String) (cpq : Nat) (a b : Question)
    (h : checkQuestion qt cpq a = .ok b) :
    b = { a with explanation := some (a.explanation.getD "") } := by
  unfold checkQuestion at h
  split_ifs at h
  cases h
  rfl

theorem checkQuestion_ok_valid (qt : String) (cpq : Nat) (a b : Question)
    (h : checkQuestion qt cpq a = .ok b) :
    b.question_type = qt ∧ b.choices.length = cpq ∧
    (∀ cid ∈ b.choices.map Choice.id, cid ≠ "") ∧
    (b.choices.map Choice.id).Nodup ∧
    b.correct_choice_ids ≠ [] ∧
    (qt = "MCQ" → b.correct_choice_ids.length = 1) ∧
    (∀ cid ∈ b.correct_choice_ids, cid ∈ b.choices.map Choice.id) := by
  have hb := checkQuestion_ok_shape qt cpq a b h
  unfold checkQuestion at h
  split_ifs at h with h1 h2 h3 h4 h5 h6
  push_neg at h1 h3 h4 h6
  subst hb
  refine ⟨h1, by simpa using h2, ?_, by simpa using h3.2, ?_, ?_, ?_⟩
  · intro cid hc
    simpa using h3.1 cid (by simpa using hc)
  · intro hnil
    have h0 : a.correct_choice_ids = [] := hnil
    rw [h0] at h4
    simp at h4
  · intro hmcq
    by_contra hne
    exact h5 ⟨hmcq, by simpa using hne⟩
  · intro cid hc
    simpa using h6 cid (by simpa using hc)

theorem checkQuestions_ok_spec (qt : String) (cpq : Nat) :
    ∀ (l l' : List Question), checkQuestions qt cpq l = .ok l' →
    (l'.map (fun q => (q.stem, q.correct_choice_ids))
      = l.map (fun q => (q.stem, q.correct_choice_ids))) ∧
    (∀ b ∈ l', ∃ a ∈ l, checkQuestion qt cpq a = .ok b) := by
  intro l
  induction l with
  | nil =>
    intro l' h
    simp only [checkQuestions] at h
    cases h
    exact ⟨rfl, by simp⟩
  | cons q rest ih =>
    intro l' h
    simp only [checkQuestions] at h
    cases hq : checkQuestion qt cpq q with
    | error e => rw [hq] at h; cases h
    | ok q' =>
      rw [hq] at h
      cases hr : checkQuestions qt cpq rest with
      | error e => rw [hr] at h; cases h
      | ok rest' =>
        rw [hr] at h
        cases h
        obtain ⟨ihmap, ihmem⟩ := ih rest' hr
        constructor
        · have hshape := checkQuestion_ok_shape qt cpq q q' hq
          subst hshape
          simp only [List.map_cons, ihmap]
        · intro b hb
          rcases List.mem_cons.mp hb with rfl | hmem
          · exact ⟨q, by simp, hq⟩
          · obtain ⟨a, ha, hab⟩ := ihmem b hmem
            exact ⟨a, by simp [ha], hab⟩

theorem shuffleOptionsFrom_map_pair (sC : Nat → List Choice → List Choice) :
    ∀ (i : Nat) (l : List Question),
    (shuffleOptionsFrom sC i l).map (fun q => (q.stem, q.correct_choice_ids))
      = l.map (fun q => (q.stem, q.correct_choice_ids)) := by
  intro i l
  induction l generalizing i with
  | nil => rfl
  | cons q rest ih => simp [shuffleOptionsFrom, ih]

theorem assignIdsFrom_map_pair :
    ∀ (n : Nat) (l : List Question),
    (assignIdsFrom n l).map (fun q => (q.stem, q.correct_choice_ids))
      = l.map (fun q => (q.stem, q.correct_choice_ids)) := by
  intro n l
  induction l generalizing n with
  | nil => rfl
  | cons q rest ih => simp [assignIdsFrom, ih]

theorem shuffleOptionsFrom_mem (sC : Nat → List Choice → List Choice) :
    ∀ (i : Nat) (l : List Question) (q' : Question), q' ∈ shuffleOptionsFrom sC i l →
    ∃ j, ∃ q ∈ l, q' = { q with choices := sC j q.choices } := by
  intro i l
  induction l generalizing i with
  | nil => intro q' h; simp [shuffleOptionsFrom] at h
  | cons q rest ih =>
    intro q' h
    rcases List.mem_cons.mp h with rfl | hmem
    · exact ⟨i, q, by simp, rfl⟩
    · obtain ⟨j, a, ha, rfl⟩ := ih (i + 1) q' hmem
      exact ⟨j, a, by simp [ha], rfl⟩

theorem assignIdsFrom_mem :
    ∀ (n : Nat) (l : List Question) (q' : Question), q' ∈ assignIdsFrom n l →
    ∃ k, ∃ q ∈ l, q' = { q with id := some (formatQId k) } := by
  intro n l
  induction l generalizing n with
  | nil => intro q' h; simp [assignIdsFrom] at h
  | cons q rest ih =>
    intro q' h
    rcases List.mem_cons.mp h with rfl | hmem
    · exact ⟨n, q, by simp, rfl⟩
    · obtain ⟨k, a, ha, rfl⟩ := ih (n + 1) q' hmem
      exact ⟨k, a, by simp [ha], rfl⟩

/-- C4: for every run of `postprocess_questions` that succeeds, and for
all values of the randomization flags and all permutations used for the
two shuffles, the `(stem, correct_choice_ids)` pairs of the output are a
permutation of those of the input — shuffling choices or reordering
questions never modifies or remaps any question's `correct_choice_ids` —
and in every output question `correct_choice_ids` is still a non-empty
subset of its (possibly reshuffled) choices' ids. -/
theorem postprocess_questions_preserves_correct_ids (questions : List Question)
    (qt : String) (cpq : Nat) (rq ro : Bool) (sQ : List Question → List Question)
    (sC : Nat → List Choice → List Choice)
    (hsQ : ∀ l, List.Perm (sQ l) l) (hsC : ∀ i l, List.Perm (sC i l) l)
    (out : List Question)
    (h : postprocess_questions questions qt cpq rq ro sQ sC = .ok out) :
    List.Perm (out.map (fun q => (q.stem, q.correct_choice_ids)))
      (questions.map (fun q => (q.stem, q.correct_choice_ids))) ∧
    (∀ q ∈ out, q.correct_choice_ids ≠ [] ∧
      ∀ cid ∈ q.correct_choice_ids, cid ∈ q.choices.map Choice.id) := by
  unfold postprocess_questions at h
  cases hc : checkQuestions qt cpq questions with
  | error e => rw [hc] at h; cases h
  | ok qs =>
    rw [hc] at h
    simp only at h
    cases h
    obtain ⟨hmap, hmem⟩ := checkQuestions_ok_spec qt cpq questions qs hc
    have hperm1 : List.Perm ((if rq then sQ qs else qs).map
        (fun q => (q.stem, q.correct_choice_ids)))
        (qs.map (fun q => (q.stem, q.correct_choice_ids))) := by
      cases rq with
      | false => simp
      | true => simpa using (hsQ qs).map (fun q => (q.stem, q.correct_choice_ids))
    have hperm2 : List.Perm ((if ro then shuffleOptionsFrom sC 0 (if rq then sQ qs else qs)
        else (if rq then sQ qs else qs)).map (fun q => (q.stem, q.correct_choice_ids)))
        (questions.map (fun q => (q.stem, q.correct_choice_ids))) := by
      rw [← hmap]
      cases ro with
      | false => exact hperm1
      | true =>
        show ((shuffleOptionsFrom sC 0 (if rq then sQ qs else qs)).map
          (fun q => (q.stem, q.correct_choice_ids))).Perm _
        rw [shuffleOptionsFrom_map_pair]
        exact hperm1
    constructor
    · rw [assignIdsFrom_map_pair]
      exact hperm2
    · intro q' hq'
      obtain ⟨k, q2, hq2, rfl⟩ := assignIdsFrom_mem 1 _ q' hq'
      have hP2 : q2.correct_choice_ids ≠ [] ∧
          ∀ cid ∈ q2.correct_choice_ids, cid ∈ q2.choices.map Choice.id := by
        have hmemQs : ∀ q1, q1 ∈ (if rq then sQ qs else qs) → q1 ∈ qs := by
          intro q1 h1
          cases rq with
          | false => simpa using h1
          | true => exact ((hsQ qs).mem_iff).mp (by simpa using h1)
        have hP1 : ∀ q1 ∈ qs, q1.correct_choice_ids ≠ [] ∧
            ∀ cid ∈ q1.correct_choice_ids, cid ∈ q1.choices.map Choice.id := by
          intro q1 h1
          obtain ⟨a, _, hab⟩ := hmem q1 h1
          obtain ⟨_, _, _, _, hne, _, hsub⟩ := checkQuestion_ok_valid qt cpq a q1 hab
          exact ⟨hne, hsub⟩
        cases ro with
        | false =>
          have : q2 ∈ (if rq then sQ qs else qs) := by simpa using hq2
          exact hP1 q2 (hmemQs q2 this)
        | true =>
          have hq2' : q2 ∈ shuffleOptionsFrom sC 0 (if rq then sQ qs else qs) := by
            simpa using hq2
          obtain ⟨j, q1, h1, rfl⟩ := shuffleOptionsFrom_mem sC 0 _ q2 hq2'
          obtain ⟨hne, hsub⟩ := hP1 q1 (hmemQs q1 h1)
          refine ⟨hne, ?_⟩
          intro cid hcid
          have := hsub cid hcid
          exact (((hsC j q1.choices).map Choice.id).mem_iff).mpr this
      exact hP2

/-- C4 witness: concrete run with both shuffles set to reversal; the
`(stem, correct_choice_ids)` pairs survive as a permutation and every
output question's correct ids reference its choices. -/
theorem postprocess_questions_preserves_correct_ids_witness :
    (∀ out, postprocess_questions [sampleQ1, sampleQ2] "MCQ" 2 true true List.reverse
        (fun _ => List.reverse) = .ok out →
      List.Perm (out.map (fun q => (q.stem, q.correct_choice_ids)))
        ([sampleQ1, sampleQ2].map (fun q => (q.stem, q.correct_choice_ids))) ∧
      (∀ q ∈ out, q.correct_choice_ids ≠ [] ∧
        ∀ cid ∈ q.correct_choice_ids, cid ∈ q.choices.map Choice.id)) ∧
    (postprocess_questions [sampleQ1, sampleQ2] "MCQ" 2 true true List.reverse
        (fun _ => List.reverse)).isOk = true := by
  constructor
  · intro out h
    exact postprocess_questions_preserves_correct_ids [sampleQ1, sampleQ2] "MCQ" 2
      true true List.reverse (fun _ => List.reverse)
      (fun l => List.reverse_perm l) (fun _ l => List.reverse_perm l) out h
  · decide

theorem checkQuestion_ok_idem (qt : String) (cpq : Nat) (a b : Question)
    (h : checkQuestion qt cpq a = .ok b) (s : Option String) :
    checkQuestion qt cpq { b with id := s } = .ok { b with id := s } := by
  have hb := checkQuestion_ok_shape qt cpq a b h
  unfold checkQuestion at h
  split_ifs at h with h1 h2 h3 h4 h5 h6
  subst hb
  unfold checkQuestion
  rw [if_neg h1, if_neg h2, if_neg h3, if_neg h4, if_neg h5, if_neg h6]
  rfl

theorem checkQuestions_of_all_ok (qt : String) (cpq : Nat) :
    ∀ l : List Question, (∀ q ∈ l, checkQuestion qt cpq q = .ok q) →
    checkQuestions qt cpq l = .ok l := by
  intro l
  induction l with
  | nil => intro _; rfl
  | cons q rest ih =>
    intro hall
    have hq : checkQuestion qt cpq q = .ok q := hall q (by simp)
    have hrest : checkQuestions qt cpq rest = .ok rest :=
      ih (fun q' hq' => hall q' (by simp [hq']))
    simp [checkQuestions, hq, hrest]

theorem assignIdsFrom_idem : ∀ (n : Nat) (l : List Question),
    assignIdsFrom n (assignIdsFrom n l) = assignIdsFrom n l := by
  intro n l
  induction l generalizing n with
  | nil => rfl
  | cons q rest ih => simp [assignIdsFrom, ih]

/-- C9: `postprocess_questions` is idempotent on an already-processed
question set when both randomization flags are false: if a first
application succeeds with result `out`, a second application to `out`
(same `question_type` and `choices_per_question`) raises no error and
returns exactly `out` — same list order, same fields, same ids. -/
theorem postprocess_questions_idempotent (questions : List Question) (qt : String)
    (cpq : Nat) (sQ : List Question → List Question)
    (sC : Nat → List Choice → List Choice) (out : List Question)
    (h : postprocess_questions questions qt cpq false false sQ sC = .ok out) :
    postprocess_questions out qt cpq false false sQ sC = .ok out := by
  unfold postprocess_questions at h
  cases hc : checkQuestions qt cpq questions with
  | error e => rw [hc] at h; cases h
  | ok qs =>
    rw [hc] at h
    have h' : (Except.ok (assignIdsFrom 1 qs) : Except String (List Question))
        = Except.ok out := h
    have hout : out = assignIdsFrom 1 qs := by
      injection h' with hx
      exact hx.symm
    obtain ⟨_, hmem⟩ := checkQuestions_ok_spec qt cpq questions qs hc
    have hall : ∀ q' ∈ out, checkQuestion qt cpq q' = .ok q' := by
      intro q' hq'
      rw [hout] at hq'
      obtain ⟨k, q2, hq2, rfl⟩ := assignIdsFrom_mem 1 qs q' hq'
      obtain ⟨a, _, hab⟩ := hmem q2 hq2
      exact checkQuestion_ok_idem qt cpq a q2 hab (some (formatQId k))
    have hchk : checkQuestions qt cpq out = .ok out := checkQuestions_of_all_ok qt cpq out hall
    unfold postprocess_questions
    rw [hchk]
    show Except.ok (assignIdsFrom 1 out) = Except.ok out
    rw [hout, assignIdsFrom_idem]

/-- C9 witness: the two sample questions postprocess (flags off) to
`sampleProcessed`, and postprocessing `sampleProcessed` again returns it
unchanged. -/
theorem postprocess_questions_idempotent_witness :
    postprocess_questions [sampleQ1, sampleQ2] "MCQ" 2 false false id (fun _ l => l)
      = .ok sampleProcessed ∧
    postprocess_questions sampleProcessed "MCQ" 2 false false id (fun _ l => l)
      = .ok sampleProcessed := by
  have h1 : postprocess_questions [sampleQ1, sampleQ2] "MCQ" 2 false false id
      (fun _ l => l) = .ok sampleProcessed := rfl
  exact ⟨h1, postprocess_questions_idempotent [sampleQ1, sampleQ2] "MCQ" 2 id
    (fun _ l => l) sampleProcessed h1⟩

theorem string_append_left_cancel (p s₁ s₂ : String) (h : p ++ s₁ = p ++ s₂) : s₁ = s₂ := by
  have hd : p.data ++ s₁.data = p.data ++ s₂.data := by
    rw [← String.data_append, ← String.data_append, h]
  have hds := List.append_cancel_left hd
  cases s₁
  cases s₂
  exact congrArg String.mk hds

theorem c_append_ne_empty (s : String) : ("c" ++ s) ≠ "" := by
  intro h
  have hd := congrArg String.data h
  rw [String.data_append] at hd
  have hcons : ('c' :: s.data : List Char) = [] := hd
  cases hcons

theorem mockChoices_map_id (n_choices : Nat) (chunk_id : String) :
    (mockChoices n_choices chunk_id).map Choice.id
      = (List.range' 1 n_choices).map (fun k => "c" ++ natToString k) := by
  simp [mockChoices, List.map_map, Function.comp]

theorem mockChoices_ids_nodup (n_choices : Nat) (chunk_id : String) :
    ((mockChoices n_choices chunk_id).map Choice.id).Nodup := by
  rw [mockChoices_map_id]
  apply List.Nodup.map_on
  · intro x hx y hy hxy
    rw [List.mem_range'_1] at hx hy
    have hs := string_append_left_cancel "c" (natToString x) (natToString y) hxy
    exact natToString_inj_pos (by omega) (by omega) hs
  · exact List.nodup_range' 1 n_choices

theorem mem_mockChoices_ids (n_choices k : Nat) (chunk_id : String)
    (h1 : 1 ≤ k) (h2 : k ≤ n_choices) :
    ("c" ++ natToString k) ∈ (mockChoices n_choices chunk_id).map Choice.id := by
  rw [mockChoices_map_id]
  exact List.mem_map.mpr ⟨k, List.mem_range'_1.mpr ⟨h1, by omega⟩, rfl⟩

theorem checkQuestion_ok_of_valid (qt : String) (cpq : Nat) (q : Question)
    (h1 : q.question_type = qt) (h2 : q.choices.length = cpq)
    (h3 : ∀ cid ∈ q.choices.map Choice.id, cid ≠ "")
    (h4 : (q.choices.map Choice.id).Nodup)
    (h5 : 1 ≤ q.correct_choice_ids.length)
    (h6 : qt = "MCQ" → q.correct_choice_ids.length = 1)
    (h7 : ∀ cid ∈ q.correct_choice_ids, cid ∈ q.choices.map Choice.id) :
    checkQuestion qt cpq q = .ok { q with explanation := some (q.explanation.getD "") } := by
  unfold checkQuestion
  rw [if_neg (by simp [h1]), if_neg (by simp [h2]),
    if_neg (by push_neg; exact ⟨fun cid hc => h3 cid hc, h4⟩),
    if_neg (by omega),
    if_neg (by rintro ⟨hmcq, hbad⟩; exact hbad (h6 hmcq)),
    if_neg (by push_neg; exact h7)]

theorem append_ne_empty_of_left_ne (p s : String) (hp : p ≠ "") : p ++ s ≠ "" := by
  intro h
  have hd := congrArg String.data h
  rw [String.data_append] at hd
  have h2 : p.data ++ s.data = [] := hd
  rcases List.append_eq_nil.mp h2 with ⟨h1, _⟩
  apply hp
  cases p
  exact congrArg String.mk h1

theorem mockCorrect_spec (qtype : String) (n_choices : Nat) (hc : 2 ≤ n_choices) :
    mockCorrect qtype n_choices ≠ [] ∧
    (qtype = "MCQ" → (mockCorrect qtype n_choices).length = 1) ∧
    (∀ cid ∈ mockCorrect qtype n_choices,
      ∃ k, 1 ≤ k ∧ k ≤ n_choices ∧ cid = "c" ++ natToString k) := by
  unfold mockCorrect
  by_cases hm : qtype = "MCQ"
  · rw [if_pos hm, if_pos hc]
    refine ⟨by simp, fun _ => rfl, ?_⟩
    intro cid hcid
    simp only [List.mem_singleton] at hcid
    subst hcid
    exact ⟨2, by omega, by omega, by decide⟩
  · rw [if_neg hm]
    by_cases h4 : 4 ≤ n_choices
    · rw [if_pos h4]
      refine ⟨by simp, fun h => absurd h hm, ?_⟩
      intro cid hcid
      simp only [List.mem_cons, List.mem_singleton, List.not_mem_nil, or_false] at hcid
      rcases hcid with rfl | rfl
      · exact ⟨2, by omega, by omega, by decide⟩
      · exact ⟨4, by omega, by omega, by decide⟩
    · rw [if_neg h4, if_pos hc]
      refine ⟨by simp, fun h => absurd h hm, ?_⟩
      intro cid hcid
      simp only [List.mem_cons, List.mem_singleton, List.not_mem_nil, or_false] at hcid
      rcases hcid with rfl | rfl
      · exact ⟨1, by omega, by omega, by decide⟩
      · exact ⟨2, by omega, by omega, by decide⟩

/-- C10: for every chunk, `question_type ∈ {"MCQ","SATA"}`,
`choices_per_question ≥ 2` and `questions_per_partition ≥ 1`, the mock
generator produces exactly `questions_per_partition` questions, each
carrying `choices_per_question` choices with unique non-empty ids
`c1..cN`, a non-empty `correct_choice_ids` that is a subset of those ids
(a singleton when MCQ), the chunk's id, and an (empty) explanation — and
the whole list passes `postprocess_questions` for the same
`question_type`/`choices_per_question` without raising, for every
combination of randomization flags and shuffles. -/
theorem mock_generate_passes_postprocess (chunk : Chunk) (qtype : String)
    (n_choices n_q : Nat) (rq ro : Bool) (sQ : List Question → List Question)
    (sC : Nat → List Choice → List Choice)
    (hqt : qtype = "MCQ" ∨ qtype = "SATA") (hc : 2 ≤ n_choices) (hq : 1 ≤ n_q) :
    (∃ out, postprocess_questions (mock_generate_questions_for_chunk chunk qtype n_choices n_q)
      qtype n_choices rq ro sQ sC = .ok out) ∧
    (mock_generate_questions_for_chunk chunk qtype n_choices n_q).length = n_q ∧
    (∀ q ∈ mock_generate_questions_for_chunk chunk qtype n_choices n_q,
      q.question_type = qtype ∧
      q.choices.length = n_choices ∧
      q.choices.map Choice.id = (List.range' 1 n_choices).map (fun k => "c" ++ natToString k) ∧
      (q.choices.map Choice.id).Nodup ∧
      (∀ cid ∈ q.choices.map Choice.id, cid ≠ "") ∧
      q.correct_choice_ids ≠ [] ∧
      (∀ cid ∈ q.correct_choice_ids, cid ∈ q.choices.map Choice.id) ∧
      (qtype = "MCQ" → q.correct_choice_ids.length = 1) ∧
      q.chunk_id = chunk.chunk_id ∧ q.stem ≠ "" ∧ q.explanation = some "") := by
  have hprops : ∀ q ∈ mock_generate_questions_for_chunk chunk qtype n_choices n_q,
      q.question_type = qtype ∧
      q.choices.length = n_choices ∧
      q.choices.map Choice.id = (List.range' 1 n_choices).map (fun k => "c" ++ natToString k) ∧
      (q.choices.map Choice.id).Nodup ∧
      (∀ cid ∈ q.choices.map Choice.id, cid ≠ "") ∧
      q.correct_choice_ids ≠ [] ∧
      (∀ cid ∈ q.correct_choice_ids, cid ∈ q.choices.map Choice.id) ∧
      (qtype = "MCQ" → q.correct_choice_ids.length = 1) ∧
      q.chunk_id = chunk.chunk_id ∧ q.stem ≠ "" ∧ q.explanation = some "" := by
    intro q hmem
    obtain ⟨i, hi, rfl⟩ := List.mem_map.mp hmem
    obtain ⟨hne, hlen1, hsub⟩ := mockCorrect_spec qtype n_choices hc
    refine ⟨rfl, by simp [mockChoices, List.length_range'], mockChoices_map_id _ _,
      mockChoices_ids_nodup _ _, ?_, hne, ?_, hlen1, rfl, ?_, rfl⟩
    · intro cid hcid
      rw [mockChoices_map_id] at hcid
      obtain ⟨k, _, rfl⟩ := List.mem_map.mp hcid
      exact c_append_ne_empty _
    · intro cid hcid
      obtain ⟨k, hk1, hk2, rfl⟩ := hsub cid hcid
      exact mem_mockChoices_ids n_choices k chunk.chunk_id hk1 hk2
    · exact append_ne_empty_of_left_ne _ _ (append_ne_empty_of_left_ne _ _
        (append_ne_empty_of_left_ne _ _ (append_ne_empty_of_left_ne _ _
        (append_ne_empty_of_left_ne _ _ (append_ne_empty_of_left_ne _ _
        (append_ne_empty_of_left_ne _ _ (append_ne_empty_of_left_ne _ _ (by decide))))))))
  refine ⟨?_, by simp [mock_generate_questions_for_chunk, List.length_range'], hprops⟩
  have hall : ∀ q ∈ mock_generate_questions_for_chunk chunk qtype n_choices n_q,
      checkQuestion qtype n_choices q = .ok q := by
    intro q hmem
    obtain ⟨hqt', hlen, _, hnd, hids, hcne, hsub', hmcq, _, _, _⟩ := hprops q hmem
    obtain ⟨i, hi, rfl⟩ := List.mem_map.mp hmem
    exact checkQuestion_ok_of_valid qtype n_choices _ hqt' hlen hids hnd
      (Nat.succ_le_of_lt (List.length_pos.mpr hcne)) hmcq hsub'
  have hchk : checkQuestions qtype n_choices
      (mock_generate_questions_for_chunk chunk qtype n_choices n_q)
      = .ok (mock_generate_questions_for_chunk chunk qtype n_choices n_q) :=
    checkQuestions_of_all_ok _ _ _ hall
  unfold postprocess_questions
  rw [hchk]
  exact ⟨_, rfl⟩

/-- C10 witness: a concrete MCQ configuration with 4 choices and 2
questions per window on the window `[1,3]`; the mock output passes
postprocessing. -/
theorem mock_generate_passes_postprocess_witness :
    (mock_generate_questions_for_chunk ⟨"chunk_001", 1, 3⟩ "MCQ" 4 2).length = 2 ∧
    (postprocess_questions (mock_generate_questions_for_chunk ⟨"chunk_001", 1, 3⟩ "MCQ" 4 2)
      "MCQ" 4 false false id (fun _ l => l)).isOk = true ∧
    (∃ out, postprocess_questions (mock_generate_questions_for_chunk ⟨"chunk_001", 1, 3⟩
      "MCQ" 4 2) "MCQ" 4 false false id (fun _ l => l) = .ok out) := by
  refine ⟨by decide, by decide, ?_⟩
  exact (mock_generate_passes_postprocess ⟨"chunk_001", 1, 3⟩ "MCQ" 4 2 false false id
    (fun _ l => l) (Or.inl rfl) (by decide) (by decide)).1

theorem tryAttempts_none_of_all_fail (oracle : Nat → Except String α) :
    ∀ attempts : List Nat, (∀ a ∈ attempts, ∃ e, oracle a = .error e) →
    tryAttempts oracle attempts = none := by
  intro attempts
  induction attempts with
  | nil => intro _; rfl
  | cons a rest ih =>
    intro hall
    obtain ⟨e, he⟩ := hall a (by simp)
    simp only [tryAttempts, he]
    exact ih (fun a' ha' => hall a' (by simp [ha']))

theorem tryAttempts_congr (o₁ o₂ : Nat → Except String α) :
    ∀ attempts : List Nat, (∀ a ∈ attempts, o₁ a = o₂ a) →
    tryAttempts o₁ attempts = tryAttempts o₂ attempts := by
  intro attempts
  induction attempts with
  | nil => intro _; rfl
  | cons a rest ih =>
    intro hall
    have ha := hall a (by simp)
    simp only [tryAttempts, ha]
    cases o₂ a with
    | ok v => rfl
    | error e => exact ih (fun a' ha' => hall a' (by simp [ha']))

theorem tryAttempts_first_ok (oracle : Nat → Except String α) (a : Nat) (rest : List Nat)
    (v : α) (h : oracle a = .ok v) : tryAttempts oracle (a :: rest) = some v := by
  simp [tryAttempts, h]

theorem setExplanationLast_map_id (qid : String) (e : String) :
    ∀ qs : List Question,
    (setExplanationLast qid e qs).map Question.id = qs.map Question.id := by
  intro qs
  induction qs with
  | nil => rfl
  | cons q rest ih =>
    unfold setExplanationLast
    split_ifs with h1 h2
    · simp [ih]
    · simp
    · simp [ih]

theorem lastWithId_isSome_iff (qs : List Question) (qid : String) :
    (lastWithId qs qid).isSome = true ↔ some qid ∈ qs.map Question.id := by
  unfold lastWithId
  rw [List.find?_isSome]
  constructor
  · rintro ⟨q, hq, hp⟩
    have : q.id = some qid := of_decide_eq_true hp
    exact List.mem_map.mpr ⟨q, List.mem_reverse.mp hq, this⟩
  · intro hmem
    obtain ⟨q, hq, hid⟩ := List.mem_map.mp hmem
    exact ⟨q, List.mem_reverse.mpr hq, decide_eq_true hid⟩

theorem lastWithId_isSome_congr (qs qs' : List Question) (qid : String)
    (h : qs'.map Question.id = qs.map Question.id) :
    (lastWithId qs' qid).isSome = (lastWithId qs qid).isSome := by
  have h1 := lastWithId_isSome_iff qs' qid
  have h2 := lastWithId_isSome_iff qs qid
  rw [h] at h1
  have hiff := h1.trans h2.symm
  cases hb : (lastWithId qs' qid).isSome <;> cases hb' : (lastWithId qs qid).isSome
  · rfl
  · exfalso; rw [hb, hb'] at hiff; simp at hiff
  · exfalso; rw [hb, hb'] at hiff; simp at hiff
  · rfl

theorem lastWithId_isNone_eq (qs : List Question) (qid : String) :
    (lastWithId qs qid).isNone = !(lastWithId qs qid).isSome := by
  cases lastWithId qs qid <;> rfl

theorem addExplanationsGo_missing (template : List Char)
    (oracle : String → Nat → Except String String) (retries : Nat) (qid : String)
    (rest : List String) (qs : List Question) (u m f : Nat)
    (hl : lastWithId qs qid = none) :
    addExplanationsGo template oracle retries (qid :: rest) qs u m f
      = addExplanationsGo template oracle retries rest qs u (m + 1) f := by
  simp only [addExplanationsGo, hl]

theorem addExplanationsGo_found_render_error (template : List Char)
    (oracle : String → Nat → Except String String) (retries : Nat) (qid : String)
    (rest : List String) (qs : List Question) (u m f : Nat) (q : Question) (e : String)
    (hl : lastWithId qs qid = some q)
    (hr : render_explain_prompt template (explainVariables q.stem
      (format_choices_with_letters q.choices)
      (format_correct_letters q.choices q.correct_choice_ids)) = .error e) :
    addExplanationsGo template oracle retries (qid :: rest) qs u m f = .error e := by
  simp only [addExplanationsGo, hl, hr]

theorem addExplanationsGo_found_fail (template : List Char)
    (oracle : String → Nat → Except String String) (retries : Nat) (qid : String)
    (rest : List String) (qs : List Question) (u m f : Nat) (q : Question) (prompt : String)
    (hl : lastWithId qs qid = some q)
    (hr : render_explain_prompt template (explainVariables q.stem
      (format_choices_with_letters q.choices)
      (format_correct_letters q.choices q.correct_choice_ids)) = .ok prompt)
    (ht : tryAttempts (oracle prompt) (List.range' 1 retries) = none) :
    addExplanationsGo template oracle retries (qid :: rest) qs u m f
      = addExplanationsGo template oracle retries rest qs u m (f + 1) := by
  simp only [addExplanationsGo, hl, hr, ht]

theorem addExplanationsGo_found_ok (template : List Char)
    (oracle : String → Nat → Except String String) (retries : Nat) (qid : String)
    (rest : List String) (qs : List Question) (u m f : Nat) (q : Question)
    (prompt text : String)
    (hl : lastWithId qs qid = some q)
    (hr : render_explain_prompt template (explainVariables q.stem
      (format_choices_with_letters q.choices)
      (format_correct_letters q.choices q.correct_choice_ids)) = .ok prompt)
    (ht : tryAttempts (oracle prompt) (List.range' 1 retries) = some text) :
    addExplanationsGo template oracle retries (qid :: rest) qs u m f
      = addExplanationsGo template oracle retries rest
          (setExplanationLast qid (pyStrip text) qs) (u + 1) m f := by
  simp only [addExplanationsGo, hl, hr, ht]

theorem addExplanationsGo_all_fail (template : List Char)
    (oracle : String → Nat → Except String String) (retries : Nat)
    (hfail : ∀ p a, 1 ≤ a → a ≤ retries → ∃ e, oracle p a = .error e) :
    ∀ (wrong_ids : List String) (qs : List Question) (u m f : Nat)
      (qs' : List Question) (u' m' f' : Nat),
    addExplanationsGo template oracle retries wrong_ids qs u m f = .ok (qs', u', m', f') →
    qs' = qs ∧ u' = u ∧
    m' = m + wrong_ids.countP (fun qid => (lastWithId qs qid).isNone) ∧
    f' = f + wrong_ids.countP (fun qid => (lastWithId qs qid).isSome) := by
  intro wrong_ids
  induction wrong_ids with
  | nil =>
    intro qs u m f qs' u' m' f' h
    simp only [addExplanationsGo] at h
    injection h with h
    injection h with h1 h
    injection h with h2 h
    injection h with h3 h4
    subst h1
    subst h2
    subst h3
    subst h4
    simp [List.countP_nil]
  | cons qid rest ih =>
    intro qs u m f qs' u' m' f' h
    cases hl : lastWithId qs qid with
    | none =>
      rw [addExplanationsGo_missing template oracle retries qid rest qs u m f hl] at h
      obtain ⟨hq, hu, hm, hf⟩ := ih qs u (m + 1) f qs' u' m' f' h
      refine ⟨hq, hu, ?_, ?_⟩
      · rw [hm, List.countP_cons]
        simp [hl, Option.isNone]
        omega
      · rw [hf, List.countP_cons]
        simp [hl, Option.isSome]
    | some q =>
      cases hr : render_explain_prompt template (explainVariables q.stem
          (format_choices_with_letters q.choices)
          (format_correct_letters q.choices q.correct_choice_ids)) with
      | error e =>
        rw [addExplanationsGo_found_render_error template oracle retries qid rest qs u m f
          q e hl hr] at h
        cases h
      | ok prompt =>
        have hnone : tryAttempts (oracle prompt) (List.range' 1 retries) = none := by
          apply tryAttempts_none_of_all_fail
          intro a ha
          rw [List.mem_range'_1] at ha
          exact hfail prompt a ha.1 (by omega)
        rw [addExplanationsGo_found_fail template oracle retries qid rest qs u m f
          q prompt hl hr hnone] at h
        obtain ⟨hq, hu, hm, hf⟩ := ih qs u m (f + 1) qs' u' m' f' h
        refine ⟨hq, hu, ?_, ?_⟩
        · rw [hm, List.countP_cons]
          simp [hl, Option.isNone]
        · rw [hf, List.countP_cons]
          simp [hl, Option.isSome]
          omega

/-- C5: retryable failures are retried up to a fixed budget of 3
attempts, and exhausting the budget degrades to a partial result instead
of aborting: (i) when all of attempts 1–3 fail, the generation call (at
its default budget) returns the empty list for that window; (ii) the
generation result only ever consults attempts `1..retries`, never more;
(iii) when every attempt 1–3 of the free-text oracle fails, a successful
enrichment run leaves the whole output — in particular every
explanation field — exactly as it was, updates nothing, and counts every
found id as skipped-failed and every unknown id as skipped-missing. -/
theorem retry_budget_exhaustion_degrades :
    (∀ (oracle : Nat → Except String (List RawQuestion)) (qtype chunk_id : String),
      (∀ a, 1 ≤ a → a ≤ 3 → ∃ e, oracle a = .error e) →
      llm_generate_questions_for_chunk oracle qtype chunk_id = []) ∧
    (∀ (o₁ o₂ : Nat → Except String (List RawQuestion)) (qtype chunk_id : String) (r : Nat),
      (∀ a, 1 ≤ a → a ≤ r → o₁ a = o₂ a) →
      llm_generate_questions_for_chunk o₁ qtype chunk_id r
        = llm_generate_questions_for_chunk o₂ qtype chunk_id r) ∧
    (∀ (output : RunOutput) (wrong_ids : List String) (template : List Char)
      (oracle : String → Nat → Except String String) (res : RunOutput × Nat × Nat × Nat),
      (∀ p a, 1 ≤ a → a ≤ 3 → ∃ e, oracle p a = .error e) →
      add_explanations_for_wrong_questions output wrong_ids template oracle = .ok res →
      res.1 = output ∧ res.2.1 = 0 ∧
      res.2.2.1 = wrong_ids.countP (fun qid => (lastWithId output.questions qid).isNone) ∧
      res.2.2.2 = wrong_ids.countP (fun qid => (lastWithId output.questions qid).isSome)) := by
  refine ⟨?_, ?_, ?_⟩
  · intro oracle qtype chunk_id hfail
    unfold llm_generate_questions_for_chunk
    rw [tryAttempts_none_of_all_fail oracle (List.range' 1 3) (fun a ha => by
      rw [List.mem_range'_1] at ha
      exact hfail a ha.1 (by omega))]
  · intro o₁ o₂ qtype chunk_id r hagree
    unfold llm_generate_questions_for_chunk
    rw [tryAttempts_congr o₁ o₂ (List.range' 1 r) (fun a ha => by
      rw [List.mem_range'_1] at ha
      exact hagree a ha.1 (by omega))]
  · intro output wrong_ids template oracle res hfail h
    unfold add_explanations_for_wrong_questions at h
    cases hgo : addExplanationsGo template oracle 3 wrong_ids output.questions 0 0 0 with
    | error e => rw [hgo] at h; cases h
    | ok r4 =>
      rw [hgo] at h
      obtain ⟨qs', u', m', f'⟩ := r4
      obtain ⟨hq, hu, hm, hf⟩ := addExplanationsGo_all_fail template oracle 3 hfail
        wrong_ids output.questions 0 0 0 qs' u' m' f' hgo
      injection h with h
      subst h
      refine ⟨?_, by simpa using hu, by simpa using hm, by simpa using hf⟩
      show ({ output with questions := qs' } : RunOutput) = output
      rw [hq]

/-- C5 witness: with an oracle that always fails, the generator yields
zero questions for the window at the default budget of 3, two oracles
agreeing on attempts 1–3 generate the same result, and enrichment of
`sampleOutput` on ids `q_0001` (present) and `q_9999` (absent) returns
the output unchanged with 0 updated, 1 skipped-missing, 1
skipped-failed. -/
theorem retry_budget_exhaustion_degrades_witness :
    llm_generate_questions_for_chunk (fun _ => .error "API error") "MCQ" "chunk_001" = [] ∧
    llm_generate_questions_for_chunk (fun _ => .error "API error") "MCQ" "chunk_001" 3
      = llm_generate_questions_for_chunk (fun a => if a ≤ 3 then .error "API error"
          else .ok []) "MCQ" "chunk_001" 3 ∧
    add_explanations_for_wrong_questions sampleOutput ["q_0001", "q_9999"] "explain".data
        (fun _ _ => .error "API error")
      = .ok (sampleOutput, 0, 1, 1) := by
  refine ⟨?_, ?_, ?_⟩
  · exact retry_budget_exhaustion_degrades.1 (fun _ => .error "API error") "MCQ" "chunk_001"
      (fun a h1 h2 => ⟨"API error", rfl⟩)
  · exact retry_budget_exhaustion_degrades.2.1 (fun _ => .error "API error")
      (fun a => if a ≤ 3 then .error "API error" else .ok []) "MCQ" "chunk_001" 3
      (fun a h1 h2 => by simp [h2])
  · have h := retry_budget_exhaustion_degrades.2.2 sampleOutput ["q_0001", "q_9999"]
      "explain".data (fun _ _ => .error "API error")
    rfl

theorem lastWithId_isNone_congr (qs qs' : List Question) (qid : String)
    (h : qs'.map Question.id = qs.map Question.id) :
    (lastWithId qs' qid).isNone = (lastWithId qs qid).isNone := by
  rw [lastWithId_isNone_eq, lastWithId_isNone_eq, lastWithId_isSome_congr qs qs' qid h]

theorem addExplanationsGo_counts (template : List Char)
    (oracle : String → Nat → Except String String) (retries : Nat) :
    ∀ (wrong_ids : List String) (qs : List Question) (u m f : Nat)
      (qs' : List Question) (u' m' f' : Nat),
    addExplanationsGo template oracle retries wrong_ids qs u m f = .ok (qs', u', m', f') →
    qs'.map Question.id = qs.map Question.id ∧
    m' = m + wrong_ids.countP (fun qid => (lastWithId qs qid).isNone) ∧
    u' + f' = u + f + wrong_ids.countP (fun qid => (lastWithId qs qid).isSome) ∧
    ((∀ p, ∃ v, oracle p 1 = .ok v) → 1 ≤ retries → f' = f) := by
  intro wrong_ids
  induction wrong_ids with
  | nil =>
    intro qs u m f qs' u' m' f' h
    simp only [addExplanationsGo] at h
    injection h with h
    injection h with h1 h
    injection h with h2 h
    injection h with h3 h4
    subst h1
    subst h2
    subst h3
    subst h4
    simp [List.countP_nil]
  | cons qid rest ih =>
    intro qs u m f qs' u' m' f' h
    cases hl : lastWithId qs qid with
    | none =>
      rw [addExplanationsGo_missing template oracle retries qid rest qs u m f hl] at h
      obtain ⟨hq, hm, huf, hsucc⟩ := ih qs u (m + 1) f qs' u' m' f' h
      refine ⟨hq, ?_, ?_, hsucc⟩
      · rw [hm, List.countP_cons]
        simp [hl, Option.isNone]
        omega
      · rw [huf, List.countP_cons]
        simp [hl, Option.isSome]
    | some q =>
      cases hr : render_explain_prompt template (explainVariables q.stem
          (format_choices_with_letters q.choices)
          (format_correct_letters q.choices q.correct_choice_ids)) with
      | error e =>
        rw [addExplanationsGo_found_render_error template oracle retries qid rest qs u m f
          q e hl hr] at h
        cases h
      | ok prompt =>
        cases ht : tryAttempts (oracle prompt) (List.range' 1 retries) with
        | none =>
          rw [addExplanationsGo_found_fail template oracle retries qid rest qs u m f
            q prompt hl hr ht] at h
          obtain ⟨hq, hm, huf, _⟩ := ih qs u m (f + 1) qs' u' m' f' h
          refine ⟨hq, ?_, ?_, ?_⟩
          · rw [hm, List.countP_cons]
            simp [hl, Option.isNone]
          · rw [huf, List.countP_cons]
            simp [hl, Option.isSome]
            omega
          · intro hsucc hret
            exfalso
            obtain ⟨k, rfl⟩ : ∃ k, retries = k + 1 := ⟨retries - 1, by omega⟩
            obtain ⟨v, hv⟩ := hsucc prompt
            rw [List.range'_succ, tryAttempts_first_ok (oracle prompt) 1 _ v hv] at ht
            cases ht
        | some text =>
          rw [addExplanationsGo_found_ok template oracle retries qid rest qs u m f
            q prompt text hl hr ht] at h
          obtain ⟨hq, hm, huf, hsucc⟩ := ih (setExplanationLast qid (pyStrip text) qs)
            (u + 1) m f qs' u' m' f' h
          have hmapid := setExplanationLast_map_id qid (pyStrip text) qs
          have hcntN : rest.countP
              (fun qid' => (lastWithId (setExplanationLast qid (pyStrip text) qs) qid').isNone)
              = rest.countP (fun qid' => (lastWithId qs qid').isNone) := by
            apply List.countP_congr
            intro x _
            rw [lastWithId_isNone_congr qs (setExplanationLast qid (pyStrip text) qs) x hmapid]
          have hcntS : rest.countP
              (fun qid' => (lastWithId (setExplanationLast qid (pyStrip text) qs) qid').isSome)
              = rest.countP (fun qid' => (lastWithId qs qid').isSome) := by
            apply List.countP_congr
            intro x _
            rw [lastWithId_isSome_congr qs (setExplanationLast qid (pyStrip text) qs) x hmapid]
          refine ⟨hq.trans hmapid, ?_, ?_, hsucc⟩
          · rw [hm, hcntN, List.countP_cons]
            simp [hl, Option.isNone]
          · rw [huf, hcntS, List.countP_cons]
            simp [hl, Option.isSome]
            omega

theorem addExplanationsGo_all_missing (template : List Char)
    (oracle : String → Nat → Except String String) (retries : Nat) :
    ∀ (wrong_ids : List String) (qs : List Question) (u m f : Nat),
    (∀ qid ∈ wrong_ids, lastWithId qs qid = none) →
    addExplanationsGo template oracle retries wrong_ids qs u m f
      = .ok (qs, u, m + wrong_ids.length, f) := by
  intro wrong_ids
  induction wrong_ids with
  | nil => intro qs u m f _; simp [addExplanationsGo]
  | cons qid rest ih =>
    intro qs u m f hall
    rw [addExplanationsGo_missing template oracle retries qid rest qs u m f
      (hall qid (by simp))]
    rw [ih qs u (m + 1) f (fun x hx => hall x (by simp [hx]))]
    have heq : m + 1 + rest.length = m + (qid :: rest).length := by
      simp only [List.length_cons]
      omega
    rw [heq]

/-- C7: the enricher never fails on unknown ids: (i) whenever an
enrichment call returns, its skipped-missing count is exactly the number
of `wrong_ids` that match no question, `updated + skipped-failed` is
exactly the number of found ids (so every remaining id is still
processed), and if the oracle succeeds on every first attempt
(with at least one attempt allowed), nothing is counted failed;
(ii) when every id in `wrong_ids` is unknown, the call always succeeds
and returns the output unchanged with all ids counted skipped-missing —
an unknown id never raises. -/
theorem add_explanations_unknown_ids_skipped :
    (∀ (output : RunOutput) (wrong_ids : List String) (template : List Char)
      (oracle : String → Nat → Except String String) (retries : Nat)
      (out' : RunOutput) (u m f : Nat),
      add_explanations_for_wrong_questions output wrong_ids template oracle retries
        = .ok (out', u, m, f) →
      m = wrong_ids.countP (fun qid => (lastWithId output.questions qid).isNone) ∧
      u + f = wrong_ids.countP (fun qid => (lastWithId output.questions qid).isSome) ∧
      ((∀ p, ∃ v, oracle p 1 = .ok v) → 1 ≤ retries →
        f = 0 ∧ u = wrong_ids.countP (fun qid => (lastWithId output.questions qid).isSome))) ∧
    (∀ (output : RunOutput) (wrong_ids : List String) (template : List Char)
      (oracle : String → Nat → Except String String) (retries : Nat),
      (∀ qid ∈ wrong_ids, lastWithId output.questions qid = none) →
      add_explanations_for_wrong_questions output wrong_ids template oracle retries
        = .ok (output, 0, wrong_ids.length, 0)) := by
  constructor
  · intro output wrong_ids template oracle retries out' u m f h
    unfold add_explanations_for_wrong_questions at h
    cases hgo : addExplanationsGo template oracle retries wrong_ids output.questions 0 0 0 with
    | error e => rw [hgo] at h; cases h
    | ok r4 =>
      rw [hgo] at h
      obtain ⟨qs', u', m', f'⟩ := r4
      obtain ⟨_, hm, huf, hsucc⟩ := addExplanationsGo_counts template oracle retries
        wrong_ids output.questions 0 0 0 qs' u' m' f' hgo
      injection h with h
      injection h with hout h
      injection h with hu h
      injection h with hmm hf
      refine ⟨by omega, by omega, ?_⟩
      intro hall hret
      have hf0 : f' = 0 := hsucc hall hret
      exact ⟨by omega, by omega⟩
  · intro output wrong_ids template oracle retries hall
    unfold add_explanations_for_wrong_questions
    rw [addExplanationsGo_all_missing template oracle retries wrong_ids output.questions
      0 0 0 hall, Nat.zero_add]

/-- C7 witness: the spec's own example — `wrong_ids = ["q_0001","q_9999"]`
against an output containing only `q_0001`, with an always-succeeding
oracle and a placeholder-free template: one explanation updated, one id
skipped as missing, none failed. -/
theorem add_explanations_unknown_ids_skipped_witness :
    add_explanations_for_wrong_questions sampleOutput ["q_0001", "q_9999"] "explain".data
        (fun _ _ => .ok "Because.")
      = .ok ({ sampleOutput with questions :=
          [{ sampleQ1 with explanation := some "Because.", id := some "q_0001" }] }, 1, 1, 0) ∧
    (1 : Nat) = List.countP
      (fun qid => (lastWithId sampleOutput.questions qid).isNone) ["q_0001", "q_9999"] ∧
    (1 + 0 : Nat) = List.countP
      (fun qid => (lastWithId sampleOutput.questions qid).isSome) ["q_0001", "q_9999"] := by
  refine ⟨by rfl, ?_, ?_⟩
  · have h := (add_explanations_unknown_ids_skipped.1 sampleOutput ["q_0001", "q_9999"]
      "explain".data (fun _ _ => .ok "Because.") 3
      ({ sampleOutput with questions :=
          [{ sampleQ1 with explanation := some "Because.", id := some "q_0001" }] })
      1 1 0 (by rfl))
    exact h.1
  · have h := (add_explanations_unknown_ids_skipped.1 sampleOutput ["q_0001", "q_9999"]
      "explain".data (fun _ _ => .ok "Because.") 3
      ({ sampleOutput with questions :=
          [{ sampleQ1 with explanation := some "Because.", id := some "q_0001" }] })
      1 1 0 (by rfl))
    exact h.2.1

theorem sameExceptExplanation_refl (a : Question) : SameExceptExplanation a a :=
  ⟨rfl, rfl, rfl, rfl, rfl, rfl⟩

theorem sameExceptExplanation_trans {a b c : Question}
    (h1 : SameExceptExplanation a b) (h2 : SameExceptExplanation b c) :
    SameExceptExplanation a c := by
  obtain ⟨x1, x2, x3, x4, x5, x6⟩ := h1
  obtain ⟨y1, y2, y3, y4, y5, y6⟩ := h2
  exact ⟨y1.trans x1, y2.trans x2, y3.trans x3, y4.trans x4, y5.trans x5, y6.trans x6⟩

theorem setExplanationLast_length (qid e : String) (qs : List Question) :
    (setExplanationLast qid e qs).length = qs.length := by
  have h := congrArg List.length (setExplanationLast_map_id qid e qs)
  simpa using h

theorem setExplanationLast_get? (qid e : String) :
    ∀ (qs : List Question) (i : Nat) (a b : Question),
    qs[i]? = some a → (setExplanationLast qid e qs)[i]? = some b →
    SameExceptExplanation a b ∧ (a.id ≠ some qid → b = a) := by
  intro qs
  induction qs with
  | nil => intro i a b ha _; simp at ha
  | cons q rest ih =>
    intro i a b ha hb
    unfold setExplanationLast at hb
    split_ifs at hb with h1 h2
    · cases i with
      | zero =>
        rw [List.getElem?_cons_zero] at ha hb
        injection ha with ha
        injection hb with hb
        subst ha
        subst hb
        exact ⟨sameExceptExplanation_refl _, fun _ => rfl⟩
      | succ i =>
        rw [List.getElem?_cons_succ] at ha hb
        exact ih i a b ha hb
    · cases i with
      | zero =>
        rw [List.getElem?_cons_zero] at ha hb
        injection ha with ha
        injection hb with hb
        subst ha
        subst hb
        exact ⟨⟨rfl, rfl, rfl, rfl, rfl, rfl⟩, fun hne => absurd h2 hne⟩
      | succ i =>
        rw [List.getElem?_cons_succ] at ha hb
        rw [ha] at hb
        injection hb with hb
        subst hb
        exact ⟨sameExceptExplanation_refl _, fun _ => rfl⟩
    · cases i with
      | zero =>
        rw [List.getElem?_cons_zero] at ha hb
        injection ha with ha
        injection hb with hb
        subst ha
        subst hb
        exact ⟨sameExceptExplanation_refl _, fun _ => rfl⟩
      | succ i =>
        rw [List.getElem?_cons_succ] at ha hb
        exact ih i a b ha hb

theorem addExplanationsGo_frame (template : List Char)
    (oracle : String → Nat → Except String String) (retries : Nat) :
    ∀ (wrong_ids : List String) (qs : List Question) (u m f : Nat)
      (qs' : List Question) (u' m' f' : Nat),
    addExplanationsGo template oracle retries wrong_ids qs u m f = .ok (qs', u', m', f') →
    qs'.length = qs.length ∧
    ∀ (i : Nat) (a b : Question), qs[i]? = some a → qs'[i]? = some b →
      SameExceptExplanation a b ∧
      ((∀ w ∈ wrong_ids, a.id ≠ some w) → b = a) := by
  intro wrong_ids
  induction wrong_ids with
  | nil =>
    intro qs u m f qs' u' m' f' h
    simp only [addExplanationsGo] at h
    injection h with h
    injection h with h1 h
    subst h1
    refine ⟨rfl, fun i a b ha hb => ?_⟩
    rw [ha] at hb
    injection hb with hb
    subst hb
    exact ⟨sameExceptExplanation_refl _, fun _ => rfl⟩
  | cons qid rest ih =>
    intro qs u m f qs' u' m' f' h
    cases hl : lastWithId qs qid with
    | none =>
      rw [addExplanationsGo_missing template oracle retries qid rest qs u m f hl] at h
      obtain ⟨hlen, hget⟩ := ih qs u (m + 1) f qs' u' m' f' h
      refine ⟨hlen, fun i a b ha hb => ?_⟩
      obtain ⟨hsame, huntouched⟩ := hget i a b ha hb
      exact ⟨hsame, fun hall => huntouched (fun w hw => hall w (by simp [hw]))⟩
    | some q =>
      cases hr : render_explain_prompt template (explainVariables q.stem
          (format_choices_with_letters q.choices)
          (format_correct_letters q.choices q.correct_choice_ids)) with
      | error e =>
        rw [addExplanationsGo_found_render_error template oracle retries qid rest qs u m f
          q e hl hr] at h
        cases h
      | ok prompt =>
        cases ht : tryAttempts (oracle prompt) (List.range' 1 retries) with
        | none =>
          rw [addExplanationsGo_found_fail template oracle retries qid rest qs u m f
            q prompt hl hr ht] at h
          obtain ⟨hlen, hget⟩ := ih qs u m (f + 1) qs' u' m' f' h
          refine ⟨hlen, fun i a b ha hb => ?_⟩
          obtain ⟨hsame, huntouched⟩ := hget i a b ha hb
          exact ⟨hsame, fun hall => huntouched (fun w hw => hall w (by simp [hw]))⟩
        | some text =>
          rw [addExplanationsGo_found_ok template oracle retries qid rest qs u m f
            q prompt text hl hr ht] at h
          obtain ⟨hlen, hget⟩ := ih (setExplanationLast qid (pyStrip text) qs)
            (u + 1) m f qs' u' m' f' h
          have hslen := setExplanationLast_length qid (pyStrip text) qs
          refine ⟨hlen.trans hslen, fun i a b ha hb => ?_⟩
          have hi : i < qs.length := (List.getElem?_eq_some.mp ha).1
          have hi2 : i < (setExplanationLast qid (pyStrip text) qs).length := by
            rw [hslen]; exact hi
          obtain ⟨c, hc⟩ : ∃ c, (setExplanationLast qid (pyStrip text) qs)[i]? = some c :=
            ⟨(setExplanationLast qid (pyStrip text) qs)[i], List.getElem?_eq_getElem hi2⟩
          obtain ⟨hsame1, huntouched1⟩ := setExplanationLast_get? qid (pyStrip text) qs
            i a c ha hc
          obtain ⟨hsame2, huntouched2⟩ := hget i c b hc hb
          refine ⟨sameExceptExplanation_trans hsame1 hsame2, ?_⟩
          intro hall
          have hne : a.id ≠ some qid := hall qid (by simp)
          have h1 := huntouched1 hne
          have h2 := huntouched2 (fun w hw => by rw [h1]; exact hall w (by simp [hw]))
          rw [h2, h1]

/-- C8: a successful enrichment changes nothing but explanations of the
named questions: every top-level field of the output (`schema_version`,
`run_id`, `context_file`, `settings`) and the number of questions are
returned unchanged, every question keeps its `id`, `stem`,
`question_type`, `choices`, `correct_choice_ids` and `chunk_id`
(only `explanation` may differ), and a question whose id is not named in
`wrong_ids` is returned entirely unchanged. -/
theorem add_explanations_frame (output : RunOutput) (wrong_ids : List String)
    (template : List Char) (oracle : String → Nat → Except String String)
    (retries : Nat) (out' : RunOutput) (u m f : Nat)
    (h : add_explanations_for_wrong_questions output wrong_ids template oracle retries
      = .ok (out', u, m, f)) :
    out'.schema_version = output.schema_version ∧ out'.run_id = output.run_id ∧
    out'.context_file = output.context_file ∧ out'.settings = output.settings ∧
    out'.questions.length = output.questions.length ∧
    ∀ (i : Nat) (a b : Question),
      output.questions[i]? = some a → out'.questions[i]? = some b →
      SameExceptExplanation a b ∧
      ((∀ w ∈ wrong_ids, a.id ≠ some w) → b = a) := by
  unfold add_explanations_for_wrong_questions at h
  cases hgo : addExplanationsGo template oracle retries wrong_ids output.questions 0 0 0 with
  | error e => rw [hgo] at h; cases h
  | ok r4 =>
    rw [hgo] at h
    obtain ⟨qs', u', m', f'⟩ := r4
    obtain ⟨hlen, hget⟩ := addExplanationsGo_frame template oracle retries wrong_ids
      output.questions 0 0 0 qs' u' m' f' hgo
    injection h with h
    injection h with hout h
    rw [← hout]
    exact ⟨rfl, rfl, rfl, rfl, hlen, hget⟩

/-- C8 witness: concretely enriching `sampleOutput` on `q_0001` yields
`sampleOutputUpdated`, whose top-level fields equal `sampleOutput`'s and
whose single question differs only in its explanation. -/
theorem add_explanations_frame_witness :
    add_explanations_for_wrong_questions sampleOutput ["q_0001"] "explain".data
        (fun _ _ => .ok "Because.")
      = .ok (sampleOutputUpdated, 1, 0, 0) ∧
    sampleOutputUpdated.settings = sampleOutput.settings ∧
    sampleOutputUpdated.questions.length = sampleOutput.questions.length ∧
    SameExceptExplanation ({ sampleQ1 with explanation := some "", id := some "q_0001" })
      ({ sampleQ1 with explanation := some "Because.", id := some "q_0001" }) := by
  have h0 : add_explanations_for_wrong_questions sampleOutput ["q_0001"] "explain".data
      (fun _ _ => .ok "Because.") = .ok (sampleOutputUpdated, 1, 0, 0) := by rfl
  have h := add_explanations_frame sampleOutput ["q_0001"] "explain".data
    (fun _ _ => .ok "Because.") 3 sampleOutputUpdated 1 0 0 h0
  refine ⟨h0, h.2.2.2.1, h.2.2.2.2.1, ?_⟩
  exact (h.2.2.2.2.2 0 ({ sampleQ1 with explanation := some "", id := some "q_0001" })
    ({ sampleQ1 with explanation := some "Because.", id := some "q_0001" })
    (by rfl) (by rfl)).1

theorem except_map_ok {α β : Type} {f : α → β} {x : Except String α} {b : β}
    (h : x.map f = .ok b) : ∃ a, x = .ok a ∧ b = f a := by
  cases x with
  | error e => simp [Except.map] at h
  | ok a =>
    refine ⟨a, rfl, ?_⟩
    simp only [Except.map] at h
    injection h with h
    exact h.symm

theorem pyFormatGo_ok_domain (vars vars' : String → Option String)
    (hdom : ∀ n, (vars n).isSome = (vars' n).isSome) :
    ∀ (fuel : Nat) (l : List Char) (out : List Char),
    pyFormatGo vars fuel l = .ok out → ∃ out', pyFormatGo vars' fuel l = .ok out' := by
  intro fuel
  induction fuel with
  | zero =>
    intro l out h
    cases l with
    | nil => exact ⟨[], rfl⟩
    | cons c rest =>
      simp only [pyFormatGo] at h
      cases h
  | succ fuel ih =>
    intro l out h
    cases l with
    | nil => exact ⟨[], rfl⟩
    | cons c rest =>
      simp only [pyFormatGo] at h ⊢
      by_cases hc : c = '{'
      · rw [if_pos hc] at h ⊢
        by_cases hh : rest.head? = some '{'
        · rw [if_pos hh] at h ⊢
          obtain ⟨t, ht, _⟩ := except_map_ok h
          obtain ⟨t', ht'⟩ := ih rest.tail t ht
          exact ⟨'{' :: t', by rw [ht']; rfl⟩
        · rw [if_neg hh] at h ⊢
          cases hsf : splitField rest with
          | none => rw [hsf] at h; cases h
          | some p =>
            obtain ⟨name, rest2⟩ := p
            rw [hsf] at h
            have h2 : (match vars name with
                | some v => Except.map (fun t => v.data ++ t) (pyFormatGo vars fuel rest2)
                | none => Except.error ("KeyError: " ++ name)) = Except.ok out := h
            cases hv : vars name with
            | none => rw [hv] at h2; cases h2
            | some v =>
              rw [hv] at h2
              have hsome' : (vars' name).isSome = true := by
                rw [← hdom name, hv]; rfl
              obtain ⟨v', hv'⟩ := Option.isSome_iff_exists.mp hsome'
              obtain ⟨t, ht, _⟩ := except_map_ok h2
              obtain ⟨t', ht'⟩ := ih rest2 t ht
              refine ⟨v'.data ++ t', ?_⟩
              show (match vars' name with
                | some v => Except.map (fun t => v.data ++ t) (pyFormatGo vars' fuel rest2)
                | none => Except.error ("KeyError: " ++ name)) = Except.ok (v'.data ++ t')
              rw [hv', ht']
              rfl
      · rw [if_neg hc] at h ⊢
        by_cases hc2 : c = '}'
        · rw [if_pos hc2] at h ⊢
          by_cases hh2 : rest.head? = some '}'
          · rw [if_pos hh2] at h ⊢
            obtain ⟨t, ht, _⟩ := except_map_ok h
            obtain ⟨t', ht'⟩ := ih rest.tail t ht
            exact ⟨'}' :: t', by rw [ht']; rfl⟩
          · rw [if_neg hh2] at h
            cases h
        · rw [if_neg hc2] at h ⊢
          obtain ⟨t, ht, _⟩ := except_map_ok h
          obtain ⟨t', ht'⟩ := ih rest t ht
          exact ⟨c :: t', by rw [ht']; rfl⟩

theorem pyFormatGo_contains (vars : String → Option String) :
    ∀ (fuel : Nat) (l : List Char) (out : List Char),
    pyFormatGo vars fuel l = .ok out →
    ∀ (n : String) (v : String), n ∈ templateVarsGo fuel l → vars n = some v →
    v.data <:+: out := by
  intro fuel
  induction fuel with
  | zero =>
    intro l out h n v hn hv
    cases l with
    | nil => simp [templateVarsGo] at hn
    | cons c rest =>
      simp only [pyFormatGo] at h
      cases h
  | succ fuel ih =>
    intro l out h n v hn hv
    cases l with
    | nil => simp [templateVarsGo] at hn
    | cons c rest =>
      simp only [pyFormatGo] at h
      simp only [templateVarsGo] at hn
      by_cases hc : c = '{'
      · rw [if_pos hc] at h hn
        by_cases hh : rest.head? = some '{'
        · rw [if_pos hh] at h hn
          obtain ⟨t, ht, hout⟩ := except_map_ok h
          subst hout
          exact List.infix_cons (ih rest.tail t ht n v hn hv)
        · rw [if_neg hh] at h hn
          cases hsf : splitField rest with
          | none => rw [hsf] at h; cases h
          | some p =>
            obtain ⟨name, rest2⟩ := p
            rw [hsf] at h hn
            have h2 : (match vars name with
                | some v => Except.map (fun t => v.data ++ t) (pyFormatGo vars fuel rest2)
                | none => Except.error ("KeyError: " ++ name)) = Except.ok out := h
            cases hv2 : vars name with
            | none => rw [hv2] at h2; cases h2
            | some w =>
              rw [hv2] at h2
              obtain ⟨t, ht, hout⟩ := except_map_ok h2
              subst hout
              rcases List.mem_cons.mp hn with rfl | hmem
              · have : w = v := by
                  rw [hv2] at hv
                  injection hv
                subst this
                exact (List.prefix_append w.data t).isInfix
              · exact ((ih rest2 t ht n v hmem hv).trans
                  (List.suffix_append w.data t).isInfix)
      · rw [if_neg hc] at h hn
        by_cases hc2 : c = '}'
        · rw [if_pos hc2] at h hn
          by_cases hh2 : rest.head? = some '}'
          · rw [if_pos hh2] at h hn
            obtain ⟨t, ht, hout⟩ := except_map_ok h
            subst hout
            exact List.infix_cons (ih rest.tail t ht n v hn hv)
          · rw [if_neg hh2] at h
            cases h
        · rw [if_neg hc2] at h hn
          obtain ⟨t, ht, hout⟩ := except_map_ok h
          subst hout
          exact List.infix_cons (ih rest t ht n v hn hv)

/-- C6 (amended): every document-derived text substituted into a prompt
template (stem, choices, correct letters) is brace-escaped before
substitution, and rendering raises no formatting error on account of the
text — any template that renders at all renders for every text value,
braces included.  However, because Python's `str.format` inserts values
verbatim and never re-scans them, the rendered prompt contains the
ESCAPED text — each literal brace of the source text appears doubled —
rather than the text with its braces exactly as in the source. -/
theorem render_explain_prompt_escapes (template : List Char)
    (stem choicesStr correctStr : String)
    (hgood : ∃ out0, render_explain_prompt template (explainVariables "" "" "")
      = .ok out0) :
    ∃ out, render_explain_prompt template (explainVariables stem choicesStr correctStr)
        = .ok out ∧
      ("stem" ∈ templateVars template → (escape_braces stem).data <:+: out.data) ∧
      ("choices" ∈ templateVars template → (escape_braces choicesStr).data <:+: out.data) ∧
      ("correct_choice_ids" ∈ templateVars template →
        (escape_braces correctStr).data <:+: out.data) := by
  have hdom : ∀ n, (explainVariables "" "" "" n).isSome
      = (explainVariables stem choicesStr correctStr n).isSome := by
    intro n
    unfold explainVariables
    split_ifs <;> rfl
  obtain ⟨out0, h0⟩ := hgood
  unfold render_explain_prompt pyFormat at h0 ⊢
  cases hgo0 : pyFormatGo (explainVariables "" "" "") template.length template with
  | error e => rw [hgo0] at h0; cases h0
  | ok t0 =>
    obtain ⟨t, ht⟩ := pyFormatGo_ok_domain (explainVariables "" "" "") 
      (explainVariables stem choicesStr correctStr) hdom template.length template t0 hgo0
    rw [ht]
    refine ⟨⟨t⟩, rfl, ?_, ?_, ?_⟩
    · intro hmem
      exact pyFormatGo_contains (explainVariables stem choicesStr correctStr)
        template.length template t ht "stem" (escape_braces stem) hmem rfl
    · intro hmem
      exact pyFormatGo_contains (explainVariables stem choicesStr correctStr)
        template.length template t ht "choices" (escape_braces choicesStr) hmem rfl
    · intro hmem
      exact pyFormatGo_contains (explainVariables stem choicesStr correctStr)
        template.length template t ht "correct_choice_ids" (escape_braces correctStr)
        hmem rfl

/-- C6 counterexample: with template `"stem: \x7bstem\x7d"` and the
document-derived stem `"a\x7bb"`, rendering succeeds but produces
`"stem: a\x7b\x7bb"` — the stem's brace is doubled by the escaping and
`str.format` inserts it verbatim, so the rendered prompt does NOT
contain the source text `"a\x7bb"` with its brace appearing exactly as
in the source. -/
theorem render_explain_prompt_counterexample :
    render_explain_prompt "stem: \x7bstem\x7d".data (explainVariables "a\x7bb" "" "")
      = .ok "stem: a\x7b\x7bb" ∧
    ¬ ("a\x7bb".data <:+: "stem: a\x7b\x7bb".data) := by
  constructor
  · rfl
  · decide

/-- C6 witness: the amended theorem applied to the concrete template
`"Q: \x7bstem\x7d"` and stem `"a\x7bb"`; the rendering also evaluates
concretely to `"Q: a\x7b\x7bb"`, exhibiting the doubled brace. -/
theorem render_explain_prompt_escapes_witness :
    (∃ out, render_explain_prompt "Q: \x7bstem\x7d".data (explainVariables "a\x7bb" "" "")
        = .ok out ∧
      ("stem" ∈ templateVars "Q: \x7bstem\x7d".data →
        (escape_braces "a\x7bb").data <:+: out.data) ∧
      ("choices" ∈ templateVars "Q: \x7bstem\x7d".data →
        (escape_braces "").data <:+: out.data) ∧
      ("correct_choice_ids" ∈ templateVars "Q: \x7bstem\x7d".data →
        (escape_braces "").data <:+: out.data)) ∧
    render_explain_prompt "Q: \x7bstem\x7d".data (explainVariables "a\x7bb" "" "")
      = .ok "Q: a\x7b\x7bb" := by
  constructor
  · exact render_explain_prompt_escapes "Q: \x7bstem\x7d".data "a\x7bb" "" ""
      ⟨"Q: ", by rfl⟩
  · rfl
